import Mathlib

/-!
Verification development for the Temporal Rule Engine of the task/habit
tracker (source: src/my-app/src/lib/block-windows.ts and
src/my-app/src/lib/habit-dashboard.ts).

Modelling conventions, used throughout:
* JavaScript numbers that only ever hold integers (minutes, millisecond
  instants, day counts, target counts) are modelled as Int.
* Calendar dates appear in the source as fixed-width ISO strings
  (YYYY-MM-DD).  Two such strings compare lexicographically exactly when
  their (year, month, day) triples compare lexicographically, so dates are
  modelled as a triple structure DateISO, and the string comparisons
  startDate > isoDate / endDate < isoDate of the source become the
  corresponding lexicographic triple comparisons.
* Nullable fields become Option.
* The Intl time-zone database is an external platform dependency; it is
  modelled as an explicit parameter (ZoneDb) mapping a zone name and a UTC
  instant in milliseconds to the offset in minutes that the formatter of
  the source would report at that instant.
-/

/-- Character-level split on a single separator character, the behaviour of
the JavaScript String.split with a one-character separator: the number of
returned segments is the number of separators plus one, and empty segments
are kept. -/
def splitChar (sep : Char) (s : String) : List String :=
  (s.toList.foldr
    (fun c acc =>
      if c = sep then [] :: acc
      else
        match acc with
        | g :: gs => (c :: g) :: gs
        | [] => [[c]])
    [[]]).map (fun l => String.mk l)

/-- Model of the JavaScript Number.parseInt with radix 10: skip leading
whitespace, read an optional sign, then the longest prefix of decimal
digits; the result is none (NaN in the source) when no digit is found, and
trailing garbage is ignored. -/
def jsParseInt (s : String) : Option Int :=
  let cs := s.toList.dropWhile Char.isWhitespace
  let signed : Bool × List Char :=
    match cs with
    | '-' :: rest => (true, rest)
    | '+' :: rest => (false, rest)
    | rest => (false, rest)
  let digits := signed.2.takeWhile Char.isDigit
  if digits.isEmpty then none
  else
    let value : Int := digits.foldl (fun a c => a * 10 + ((c.toNat : Int) - 48)) 0
    some (if signed.1 then -value else value)

/-- A calendar date as parsed from a fixed-width ISO YYYY-MM-DD string
(the parseIsoDateParts shape of the source). -/
structure DateISO where
  y : Int
  m : Int
  d : Int
deriving DecidableEq, Repr

/-- Lexicographic strict order on date triples; on fixed-width ISO strings
this is exactly the string comparison the source performs. -/
def dateLtB (a b : DateISO) : Bool :=
  if a.y < b.y then true
  else if a.y = b.y then
    if a.m < b.m then true
    else if a.m = b.m then decide (a.d < b.d)
    else false
  else false

/-- Lexicographic non-strict order on date triples. -/
def dateLeB (a b : DateISO) : Bool :=
  dateLtB a b || a == b

/-- Days since 1970-01-01 of a civil date with month in 1..12 (the
days-from-civil algorithm over floored division; Int division in Lean is
Euclidean, which agrees with floored division for the positive divisors
used here). -/
def daysFromCivil (y m d : Int) : Int :=
  let yy := if m ≤ 2 then y - 1 else y
  let era := yy / 400
  let yoe := yy - era * 400
  let mp := (m + 9) % 12
  let doy := (153 * mp + 2) / 5 + d - 1
  let doe := yoe * 365 + yoe / 4 - yoe / 100 + doy
  era * 146097 + doe - 719468

/-- Days since the epoch of Date.UTC(y, m - 1, d): months outside 1..12
roll the year over with floored division and days are linear, matching the
JavaScript Date normalisation. -/
def utcDays (y m d : Int) : Int :=
  let ym := y + (m - 1) / 12
  let mm := (m - 1) % 12 + 1
  daysFromCivil ym mm d

/-- Millisecond instant of UTC midnight of a date, the
Date.UTC(year, month - 1, day, 0, 0, 0, 0) of the source. -/
def epochMs (d : DateISO) : Int :=
  utcDays d.y d.m d.d * 86400000

/-- Day of week (0 = Sunday .. 6 = Saturday) of a date, the isoDayOfWeek of
both source files: build the UTC date and take getUTCDay; 1970-01-01 was a
Thursday, hence the shift by 4. -/
def isoDayOfWeek (d : DateISO) : Int :=
  (utcDays d.y d.m d.d + 4) % 7

example : utcDays 1970 1 1 = 0 := by decide
example : isoDayOfWeek ⟨2024, 6, 10⟩ = 1 := by decide
example : isoDayOfWeek ⟨2024, 6, 11⟩ = 2 := by decide
example : jsParseInt "09" = some 9 := by decide
example : jsParseInt "xx" = none := by decide
example : splitChar ':' "09:30" = ["09", "30"] := by decide

/-! ## Block-window engine (src/my-app/src/lib/block-windows.ts) -/

namespace BW

/-- Severity attached to a blocking window. -/
inductive Severity where
  | strict
  | lenient
deriving DecidableEq, Repr

/-- Recurrence cadence of a period rule. -/
inductive Cadence where
  | daily
  | weekly
  | monthly
  | interval
deriving DecidableEq, Repr

/-- PeriodRuleEntity of the source.  timesPerPeriod is a nullable integer;
daysOfWeek is a nullable integer array whose meaning depends on the
cadence. -/
structure PeriodRuleEntity where
  id : String
  cadence : Cadence
  timesPerPeriod : Option Int
  period : String
  daysOfWeek : Option (List Int)
  weekStart : Option Int
  timezone : String
deriving DecidableEq, Repr

/-- TimeRuleEntity of the source.  startTime and endTime are nullable time
strings. -/
structure TimeRuleEntity where
  id : String
  startTime : Option String
  endTime : Option String
  anytime : Bool
deriving DecidableEq, Repr

/-- TaskEntity of the source.  startDate and endDate are optional
fixed-width ISO dates, modelled as triples. -/
structure TaskEntity where
  id : String
  title : String
  description : Option String
  kind : String
  active : Bool
  startDate : Option DateISO
  endDate : Option DateISO
  periodRules : List PeriodRuleEntity
  timeRules : List TimeRuleEntity
  tags : List String
deriving DecidableEq, Repr

/-- taskActiveOnDate: the task is considered on a date when it is active
and the date is inside the optional inclusive startDate/endDate range; the
source compares fixed-width ISO strings, modelled by the lexicographic
triple comparison. -/
def taskActiveOnDate (t : TaskEntity) (date : DateISO) : Bool :=
  if !t.active then false
  else if (match t.startDate with
    | some s => dateLtB date s
    | none => false) then false
  else if (match t.endDate with
    | some e => dateLtB e date
    | none => false) then false
  else true

/-- resolveTaskTimeZone: the timezone of the first period rule that has a
nonempty timezone string, else the fallback.  The source uses JavaScript
truthiness, so an empty timezone string is passed over. -/
def resolveTaskTimeZone (t : TaskEntity) (fallback : String) : String :=
  match t.periodRules.find? (fun r => r.timezone ≠ "") with
  | some r => r.timezone
  | none => fallback

/-- createDefaultDailyRule: the implicit daily rule synthesised for a task
with no period rules. -/
def createDefaultDailyRule (t : TaskEntity) : PeriodRuleEntity :=
  { id := t.id ++ "-default-period"
    cadence := Cadence.daily
    timesPerPeriod := some 1
    period := "day"
    daysOfWeek := none
    weekStart := none
    timezone := resolveTaskTimeZone t "UTC" }

/-- ruleMatchesDate of block-windows.ts.  The switch has cases for daily,
weekly and monthly; the interval cadence falls into the default branch,
which returns true. -/
def ruleMatchesDate (rule : PeriodRuleEntity) (date : DateISO) (dayOfWeek : Int) : Bool :=
  match rule.cadence with
  | Cadence.daily => true
  | Cadence.weekly =>
    let days := rule.daysOfWeek.getD []
    if days.isEmpty then true else days.contains dayOfWeek
  | Cadence.monthly =>
    let days := rule.daysOfWeek.getD []
    if days.isEmpty then date.d == 1 else days.contains date.d
  | Cadence.interval => true

/-- determineTargetForDate of block-windows.ts: zero when the task fails
the active/date-range check, otherwise the sum of timesPerPeriod (default
1 when null) over the rules matching the date, where a task with no period
rules uses the implicit daily rule.  The Number.isFinite guard of the
source cannot fire in the integer model. -/
def determineTargetForDate (t : TaskEntity) (date : DateISO) (dayOfWeek : Int) : Int :=
  if !taskActiveOnDate t date then 0
  else
    let rules := if t.periodRules.isEmpty then [createDefaultDailyRule t] else t.periodRules
    rules.foldl
      (fun total rule =>
        if ruleMatchesDate rule date dayOfWeek then total + rule.timesPerPeriod.getD 1
        else total)
      0

end BW

namespace BW

/-- Grace and duration configuration passed to resolveMinutesForRule. -/
structure ResolveOptions where
  durationDefaultMinutes : Int
  preGraceMinutes : Int
  postGraceMinutes : Int
deriving DecidableEq, Repr

/-- Minutes in a day, the MINUTES_IN_DAY constant. -/
def MINUTES_IN_DAY : Int := 24 * 60

/-- clampMinute of the source: clamp a minute value into [0, 1440]. -/
def clampMinute (value : Int) : Int :=
  if value < 0 then 0
  else if value > MINUTES_IN_DAY then MINUTES_IN_DAY
  else value

/-- toMinutes of the source: split the time string on the colon, parse both
parts with Number.parseInt; when the string is empty, or either part
parses to NaN, the result is 0, otherwise hours times 60 plus minutes.
Note that an unparseable string therefore yields 0, it is not rejected. -/
def toMinutes (value : String) : Int :=
  if value = "" then 0
  else
    let parts := splitChar ':' value
    let hours := jsParseInt (parts.headD "0")
    let minutes := jsParseInt ((parts.drop 1).headD "0")
    match hours, minutes with
    | some h, some m => h * 60 + m
    | _, _ => 0

/-- JavaScript falsiness of a nullable string: null or the empty string. -/
def strFalsy : Option String → Bool
  | none => true
  | some s => s = ""

/-- resolveMinutesForRule of the source.  The result components are
nullable in the source type but every code path returns numbers. -/
def resolveMinutesForRule (rule : TimeRuleEntity) (options : ResolveOptions) :
    Option Int × Option Int :=
  if rule.anytime || strFalsy rule.startTime then
    let start := clampMinute (0 - options.preGraceMinutes)
    let «end» := clampMinute (MINUTES_IN_DAY + options.postGraceMinutes)
    (some start, some «end»)
  else
    let startStr := rule.startTime.getD ""
    let startMinutes := clampMinute (toMinutes startStr - options.preGraceMinutes)
    let endMinutes :=
      if !strFalsy rule.endTime then
        clampMinute (toMinutes (rule.endTime.getD "") + options.postGraceMinutes)
      else
        clampMinute (toMinutes startStr + options.durationDefaultMinutes + options.postGraceMinutes)
    (some startMinutes, some endMinutes)

/-- The minute-interval guard of buildBlockingWindows: the resolved rule
contributes a minute interval unless a component is null or the end does
not exceed the start (the two continue statements after the resolver
call). -/
def ruleMinuteInterval (rule : TimeRuleEntity) (options : ResolveOptions) :
    Option (Int × Int) :=
  match resolveMinutesForRule rule options with
  | (some s, some e) => if e ≤ s then none else some (s, e)
  | _ => none

/-- The platform zone database: offset in minutes that the cached
formatter reports for a zone name at a millisecond UTC instant (the
offsetMinutes component of extractParts).  The model keeps it as an
explicit parameter; entries are pure data, matching the write-once
formatter cache of the source. -/
def ZoneDb : Type := String → Int → Int

/-- A converted instant: the millisecond UTC time of the Date and the
offset the formatter reported for it (the ZonedDate of the source, with
the ISO string rendering elided; the string is a formatting of these two
numbers). -/
structure ZonedInstant where
  utc : Int
  offsetMinutes : Int
deriving DecidableEq, Repr

/-- convertMinutesToDate of the source: form the provisional UTC instant,
subtract the offset observed at it, and when the offset observed at the
corrected instant differs, redo the subtraction with the new offset.  The
null return of the source only guards missing formatter fields, which the
total zone database of the model never produces, so the model always
returns a value; callers still pattern-match on an Option to mirror the
source guard. -/
def convertMinutesToDate (zdb : ZoneDb) (dateIso : DateISO) (minutes : Int)
    (timeZone : String) : Option ZonedInstant :=
  let base := epochMs dateIso
  let guess := base + minutes * 60000
  let initialOffset := zdb timeZone guess
  let adjustedUtc := guess - initialOffset * 60000
  let finalOffset := zdb timeZone adjustedUtc
  if finalOffset ≠ initialOffset then
    let adjustedUtc2 := guess - finalOffset * 60000
    some { utc := adjustedUtc2, offsetMinutes := zdb timeZone adjustedUtc2 }
  else
    some { utc := adjustedUtc, offsetMinutes := finalOffset }

end BW

namespace BW

/-- Whitespace trim at both ends, the JavaScript String.trim used by
buildReason. -/
def trimStr (s : String) : String :=
  String.mk (((s.toList.dropWhile Char.isWhitespace).reverse.dropWhile Char.isWhitespace).reverse)

/-- Join a list of strings with a separator, the JavaScript Array.join. -/
def joinSep (sep : String) : List String → String
  | [] => ""
  | x :: xs => xs.foldl (fun acc s => acc ++ sep ++ s) x

/-- sanitizeTag of the source: lower-case the tag and strip one leading
hash character. -/
def sanitizeTag (tag : String) : String :=
  let lowered := String.mk (tag.toList.map Char.toLower)
  match lowered.toList with
  | '#' :: rest => String.mk rest
  | _ => lowered

/-- buildReason of the source: the task title prefixed by a label and
followed by the hash-prefixed tags. -/
def buildReason (t : TaskEntity) : String :=
  let tagSuffix :=
    if t.tags.isEmpty then ""
    else " " ++ joinSep " " (t.tags.map (fun tag => "#" ++ tag))
  trimStr ("タスク: " ++ t.title ++ tagSuffix)

/-- The DEFAULT_FOCUS_TAGS constant. -/
def DEFAULT_FOCUS_TAGS : List String := ["focus"]

/-- The IntermediateWindow of the source, with the redundant Date objects
and the ISO string renderings elided: startIso and endIso are pure
formattings of the millisecond instants kept here, so every claim about
instants is stated on startUtc and endUtc.  The reasons Set of the source
iterates in insertion order, modelled as an insertion-ordered list without
duplicates. -/
structure IntermediateWindow where
  startUtc : Int
  endUtc : Int
  redirectUrl : String
  severity : Severity
  reasons : List String
  timeZone : String
deriving DecidableEq, Repr

/-- BuildWindowOptions of the source; the default values are those the
destructuring in buildBlockingWindows supplies for absent fields. -/
structure BuildWindowOptions where
  dateIso : String
  timeZone : String
  preGraceMinutes : Int := 3
  postGraceMinutes : Int := 3
  durationDefaultMinutes : Int := 60
  focusTagNames : List String := ["focus"]
  focusOnly : Bool := true
  redirectUrlDefault : String
deriving Repr

/-- The time rules the window loop iterates: the ones of the task, or the
implicit anytime rule when the task has none. -/
def timeRulesOr (t : TaskEntity) : List TimeRuleEntity :=
  if t.timeRules.isEmpty then
    [{ id := t.id ++ "-anytime", startTime := none, endTime := none, anytime := true }]
  else t.timeRules

/-- The body of the inner rule loop of buildBlockingWindows: resolve the
rule to a minute interval, drop it when the interval is missing or empty,
convert both endpoints, and drop the rule when a conversion fails or the
converted end does not exceed the converted start; otherwise produce the
candidate window. -/
def candidateForRule (zdb : ZoneDb) (date : DateISO) (taskTimeZone : String)
    (severity : Severity) (reason redirectUrl : String) (ropts : ResolveOptions)
    (rule : TimeRuleEntity) : Option IntermediateWindow :=
  match ruleMinuteInterval rule ropts with
  | none => none
  | some (s, e) =>
    match convertMinutesToDate zdb date s taskTimeZone,
        convertMinutesToDate zdb date e taskTimeZone with
    | some sd, some ed =>
      if ed.utc ≤ sd.utc then none
      else
        some { startUtc := sd.utc, endUtc := ed.utc, redirectUrl := redirectUrl,
               severity := severity, reasons := [reason], timeZone := taskTimeZone }
    | _, _ => none

/-- The body of the task loop of buildBlockingWindows: skip inactive or
zero-target tasks, apply the focus-tag policy, resolve the effective
timezone and severity, and emit one candidate per accepted time rule. -/
def candidatesForTask (zdb : ZoneDb) (opts : BuildWindowOptions)
    (focusNames : List String) (date : DateISO) (dayOfWeek : Int)
    (t : TaskEntity) : List IntermediateWindow :=
  if !taskActiveOnDate t date then []
  else if determineTargetForDate t date dayOfWeek ≤ 0 then []
  else
    let normalizedTags := t.tags.map sanitizeTag
    let hasFocusTag := normalizedTags.any (fun tag => focusNames.contains tag)
    if opts.focusOnly && !hasFocusTag then []
    else
      let taskTimeZone := resolveTaskTimeZone t opts.timeZone
      let severity := if hasFocusTag then Severity.strict else Severity.lenient
      let reasonBase := buildReason t
      let redirectUrl := opts.redirectUrlDefault
      let ropts : ResolveOptions :=
        { durationDefaultMinutes := opts.durationDefaultMinutes
          preGraceMinutes := opts.preGraceMinutes
          postGraceMinutes := opts.postGraceMinutes }
      (timeRulesOr t).filterMap
        (candidateForRule zdb date taskTimeZone severity reasonBase redirectUrl ropts)

/-- All candidate windows of a task list, in task order then time-rule
order, exactly the windows array buildBlockingWindows accumulates before
merging. -/
def windowCandidates (zdb : ZoneDb) (opts : BuildWindowOptions) (date : DateISO)
    (tasks : List TaskEntity) : List IntermediateWindow :=
  let dayOfWeek := isoDayOfWeek date
  let focusNames :=
    if opts.focusTagNames.isEmpty then DEFAULT_FOCUS_TAGS
    else opts.focusTagNames.map sanitizeTag
  tasks.flatMap (candidatesForTask zdb opts focusNames date dayOfWeek)

end BW

namespace BW

/-- Stable insertion of a window into a list sorted ascending by startUtc:
the window goes after every element whose start is strictly smaller and
before the first element whose start is greater than or equal, which is
the placement the stable JavaScript Array.sort with the comparator on
startUtc produces for an element originally preceding the others. -/
def insertByStart (w : IntermediateWindow) : List IntermediateWindow → List IntermediateWindow
  | [] => [w]
  | x :: xs =>
    if w.startUtc ≤ x.startUtc then w :: x :: xs
    else x :: insertByStart w xs

/-- Stable sort of the candidate windows ascending by startUtc, the
[...windows].sort((a, b) => a.startUtc - b.startUtc) of the source
(JavaScript Array.sort is stable, ties keep input order). -/
def sortByStart : List IntermediateWindow → List IntermediateWindow
  | [] => []
  | w :: ws => insertByStart w (sortByStart ws)

/-- Union of reason lists preserving insertion order and skipping
duplicates, the behaviour of adding the members of one Set of the source
into another. -/
def addReasons (base more : List String) : List String :=
  more.foldl (fun rs r => if rs.contains r then rs else rs ++ [r]) base

/-- The merge condition of mergeWindows: identical timezone, redirect and
severity, and the candidate starts no later than the running window
ends. -/
def canMerge (last w : IntermediateWindow) : Bool :=
  last.timeZone == w.timeZone && last.redirectUrl == w.redirectUrl &&
    last.severity == w.severity && decide (w.startUtc ≤ last.endUtc)

/-- Merging a candidate into the running window: the end becomes the
maximum of the two ends and the reasons are united. -/
def mergeInto (last w : IntermediateWindow) : IntermediateWindow :=
  { last with endUtc := max last.endUtc w.endUtc, reasons := addReasons last.reasons w.reasons }

/-- The walk of mergeWindows over the sorted candidates; the accumulator
holds the emitted windows in reverse so its head is the running window the
source mutates. -/
def mergeCore : List IntermediateWindow → List IntermediateWindow → List IntermediateWindow
  | acc, [] => acc.reverse
  | [], w :: rest => mergeCore [w] rest
  | last :: acc, w :: rest =>
    if canMerge last w then mergeCore (mergeInto last w :: acc) rest
    else mergeCore (w :: last :: acc) rest

/-- mergeWindows of the source: sort the candidates ascending by start
(stably) and walk left to right merging into the last emitted window. -/
def mergeWindows (windows : List IntermediateWindow) : List IntermediateWindow :=
  mergeCore [] (sortByStart windows)

/-- The output payload.  start_at and end_at of the source are ISO strings
rendering the start and end instants together with their zone offsets;
the model keeps the instants themselves.  The constant policy.mode field
is elided. -/
structure BlockingWindowPayload where
  startAt : Int
  endAt : Int
  reason : String
  redirectUrl : String
  severity : Severity
deriving DecidableEq, Repr

/-- The final mapping of a merged window onto the response payload: the
reasons are joined with the separator. -/
def toPayload (w : IntermediateWindow) : BlockingWindowPayload :=
  { startAt := w.startUtc, endAt := w.endUtc, reason := joinSep " / " w.reasons,
    redirectUrl := w.redirectUrl, severity := w.severity }

/-- The body of buildBlockingWindows after the date validation: build the
candidates, return the empty list when there are none, otherwise merge and
project to payloads. -/
def buildBlockingWindowsCore (zdb : ZoneDb) (tasks : List TaskEntity)
    (opts : BuildWindowOptions) (date : DateISO) : List BlockingWindowPayload :=
  let ws := windowCandidates zdb opts date tasks
  if ws.isEmpty then []
  else (mergeWindows ws).map toPayload

/-- The date-format test of buildBlockingWindows, the anchored regular
expression over four digits, a hyphen, two digits, a hyphen and two
digits. -/
def isValidDateIso (s : String) : Bool :=
  match s.toList with
  | [y1, y2, y3, y4, h1, m1, m2, h2, d1, d2] =>
    y1.isDigit && y2.isDigit && y3.isDigit && y4.isDigit && h1 == '-' &&
      m1.isDigit && m2.isDigit && h2 == '-' && d1.isDigit && d2.isDigit
  | _ => false

/-- parseIsoDateParts of the source: split on the hyphen and parse the
three parts.  A NaN part is modelled as 0; inside the engine the function
is only reached on strings accepted by the date regular expression, for
which every part parses. -/
def parseIsoDateParts (s : String) : DateISO :=
  let parts := splitChar '-' s
  { y := (jsParseInt (parts.headD "")).getD 0
    m := (jsParseInt ((parts.drop 1).headD "")).getD 0
    d := (jsParseInt ((parts.drop 2).headD "")).getD 0 }

/-- buildBlockingWindows of the source: reject a date string that fails
the fixed-width format test by throwing (modelled as Except.error with the
thrown message), otherwise run the engine. -/
def buildBlockingWindows (zdb : ZoneDb) (tasks : List TaskEntity)
    (opts : BuildWindowOptions) : Except String (List BlockingWindowPayload) :=
  if !isValidDateIso opts.dateIso then
    Except.error "Invalid date format. Expected YYYY-MM-DD"
  else
    Except.ok (buildBlockingWindowsCore zdb tasks opts (parseIsoDateParts opts.dateIso))

end BW

/-! ## Habit dashboard (src/my-app/src/lib/habit-dashboard.ts) -/

namespace HD

/-- The DEFAULT_TIMEZONE constant of habit-dashboard.ts. -/
def DEFAULT_TIMEZONE : String := "Asia/Tokyo"

/-- The HabitTask of habit-dashboard.ts.  Its period rules have exactly
the field shape of the block-window PeriodRuleEntity, so the rule type is
shared. -/
structure HabitTask where
  id : String
  title : String
  active : Bool
  startDate : Option DateISO
  endDate : Option DateISO
  periodRules : List BW.PeriodRuleEntity
deriving DecidableEq, Repr

/-- taskActiveOnDate of habit-dashboard.ts, identical in logic to the
block-window variant. -/
def taskActiveOnDate (t : HabitTask) (date : DateISO) : Bool :=
  if !t.active then false
  else if (match t.startDate with
    | some s => dateLtB date s
    | none => false) then false
  else if (match t.endDate with
    | some e => dateLtB e date
    | none => false) then false
  else true

/-- ruleMatchesDate of habit-dashboard.ts.  Unlike the block-window
variant, the interval cadence is an explicit case that returns false.  The
monthly case reads the day of month from the last two characters of the
fixed-width ISO string, which is the d component of the triple. -/
def ruleMatchesDate (rule : BW.PeriodRuleEntity) (date : DateISO) (dayOfWeek : Int) : Bool :=
  match rule.cadence with
  | BW.Cadence.daily => true
  | BW.Cadence.weekly =>
    let candidates := rule.daysOfWeek.getD []
    if candidates.isEmpty then true else candidates.contains dayOfWeek
  | BW.Cadence.monthly =>
    let days := rule.daysOfWeek.getD []
    if days.isEmpty then date.d == 1 else days.contains date.d
  | BW.Cadence.interval => false

/-- determineTargetForDate of habit-dashboard.ts; its synthetic default
rule uses DEFAULT_TIMEZONE and the id suffix -default. -/
def determineTargetForDate (t : HabitTask) (date : DateISO) (dayOfWeek : Int) : Int :=
  if !taskActiveOnDate t date then 0
  else
    let rules : List BW.PeriodRuleEntity :=
      if t.periodRules.isEmpty then
        [{ id := t.id ++ "-default", cadence := BW.Cadence.daily, timesPerPeriod := some 1,
           period := "day", daysOfWeek := none, weekStart := none,
           timezone := DEFAULT_TIMEZONE }]
      else t.periodRules
    rules.foldl
      (fun total rule =>
        if ruleMatchesDate rule date dayOfWeek then total + rule.timesPerPeriod.getD 1
        else total)
      0

/-- The per-day aggregate of the dashboard. -/
structure DayStat where
  required : Nat
  completedTasks : Nat
  done : Bool
deriving DecidableEq, Repr

/-- The streak summary. -/
structure StreakStats where
  current : Nat
  longest : Nat
  breakDate : Option DateISO
deriving DecidableEq, Repr

/-- Stable insertion into a list sorted ascending by date key, the
placement the stable JavaScript Array.sort with the string comparator on
the entry keys produces. -/
def insertByDate (e : DateISO × DayStat) :
    List (DateISO × DayStat) → List (DateISO × DayStat)
  | [] => [e]
  | x :: xs =>
    if dateLeB e.1 x.1 then e :: x :: xs
    else x :: insertByDate e xs

/-- Sort the day-stat entries ascending by date key. -/
def sortByDate : List (DateISO × DayStat) → List (DateISO × DayStat)
  | [] => []
  | e :: es => insertByDate e (sortByDate es)

/-- The descending loop of computeStreakStats, applied to the reversed
sorted entries: skip transparent days, stop with the break date at the
first non-done day, count consecutive done days otherwise. -/
def currentScan : List (DateISO × DayStat) → Nat × Option DateISO
  | [] => (0, none)
  | (date, stat) :: rest =>
    if stat.required = 0 then currentScan rest
    else if !stat.done then (0, some date)
    else
      let r := currentScan rest
      (r.1 + 1, r.2)

/-- The ascending loop of computeStreakStats with the longest and streak
accumulators: transparent days leave both untouched, a done day extends
the streak and the maximum, any other day resets the streak. -/
def longestScan : List (DateISO × DayStat) → Nat → Nat → Nat
  | [], longest, _ => longest
  | (_, stat) :: rest, longest, streak =>
    if stat.required = 0 then longestScan rest longest streak
    else if stat.done then longestScan rest (max longest (streak + 1)) (streak + 1)
    else longestScan rest longest 0

/-- computeStreakStats of habit-dashboard.ts: keep the entries at or
before the reference date, sort ascending by date, compute the current
streak and break date walking from the end backwards, and the longest
streak walking forwards. -/
def computeStreakStats (dayStats : List (DateISO × DayStat)) (referenceIso : DateISO) :
    StreakStats :=
  let entries := sortByDate (dayStats.filter (fun e => dateLeB e.1 referenceIso))
  let cb := currentScan entries.reverse
  { current := cb.1, longest := longestScan entries 0 0, breakDate := cb.2 }

end HD

/-- Projection of a block-window task onto the habit-dashboard task shape,
for comparing the two target computations on one task snapshot. -/
def toHabitTask (t : BW.TaskEntity) : HD.HabitTask :=
  { id := t.id, title := t.title, active := t.active, startDate := t.startDate,
    endDate := t.endDate, periodRules := t.periodRules }

section StreakScenario

example :
    HD.computeStreakStats
      [(⟨2024, 6, 1⟩, ⟨1, 1, true⟩), (⟨2024, 6, 2⟩, ⟨1, 1, true⟩),
       (⟨2024, 6, 3⟩, ⟨1, 0, false⟩), (⟨2024, 6, 4⟩, ⟨1, 1, true⟩),
       (⟨2024, 6, 5⟩, ⟨1, 1, true⟩)] ⟨2024, 6, 5⟩ =
      { current := 2, longest := 2, breakDate := some ⟨2024, 6, 3⟩ } := by decide

example :
    HD.computeStreakStats
      [(⟨2024, 6, 1⟩, ⟨1, 1, true⟩), (⟨2024, 6, 2⟩, ⟨0, 0, true⟩),
       (⟨2024, 6, 3⟩, ⟨1, 1, true⟩)] ⟨2024, 6, 3⟩ =
      { current := 2, longest := 2, breakDate := none } := by decide

end StreakScenario

/-! ## C1: the Cadence Matcher target function -/

/-- Match predicate written from the claim wording: a daily rule matches
every date; a weekly rule matches when the day of week of the date is in
the day set, every date when the set is empty; a monthly rule matches when
the day of month is in the day set, only day of month 1 when the set is
empty.  The claim does not define the interval cadence, so the comparison
theorem assumes the task has no interval rule. -/
def specC1RuleMatches (rule : BW.PeriodRuleEntity) (date : DateISO) : Bool :=
  match rule.cadence with
  | BW.Cadence.daily => true
  | BW.Cadence.weekly =>
    let days := rule.daysOfWeek.getD []
    days.isEmpty || days.contains (isoDayOfWeek date)
  | BW.Cadence.monthly =>
    let days := rule.daysOfWeek.getD []
    if days.isEmpty then date.d == 1 else days.contains date.d
  | BW.Cadence.interval => false

/-- Target function written from the claim wording: zero when the task is
inactive or the date lies lexicographically outside the startDate/endDate
range, otherwise the sum over the rules of timesPerPeriod (default 1) for
each matching rule, where a task without rules behaves as one implicit
daily rule with one occurrence. -/
def specC1Target (t : BW.TaskEntity) (date : DateISO) : Int :=
  if !t.active
      || (match t.startDate with
        | some s => dateLtB date s
        | none => false)
      || (match t.endDate with
        | some e => dateLtB e date
        | none => false) then 0
  else if t.periodRules.isEmpty then 1
  else
    (t.periodRules.map
      (fun r => if specC1RuleMatches r date then r.timesPerPeriod.getD 1 else 0)).sum

theorem taskActiveOnDate_eq_not_or (t : BW.TaskEntity) (date : DateISO) :
    BW.taskActiveOnDate t date =
      !(!t.active
        || (match t.startDate with
          | some s => dateLtB date s
          | none => false)
        || (match t.endDate with
          | some e => dateLtB e date
          | none => false)) := by
  unfold BW.taskActiveOnDate
  cases t.active <;>
    cases hs : (match t.startDate with
      | some s => dateLtB date s
      | none => false) <;>
    cases he : (match t.endDate with
      | some e => dateLtB e date
      | none => false) <;>
    simp [hs, he]

theorem foldl_if_add_eq_sum {α : Type} (p : α → Bool) (f : α → Int) (l : List α) (init : Int) :
    l.foldl (fun tot r => if p r then tot + f r else tot) init
      = init + (l.map (fun r => if p r then f r else 0)).sum := by
  induction l generalizing init with
  | nil => simp
  | cons x xs ih =>
    simp only [List.foldl_cons, List.map_cons, List.sum_cons]
    by_cases h : p x
    · simp [h, ih]
      ring
    · simp [h, ih]

theorem ruleMatches_eq_spec (rule : BW.PeriodRuleEntity) (date : DateISO)
    (h : rule.cadence ≠ BW.Cadence.interval) :
    BW.ruleMatchesDate rule date (isoDayOfWeek date) = specC1RuleMatches rule date := by
  unfold BW.ruleMatchesDate specC1RuleMatches
  cases hc : rule.cadence with
  | daily => rfl
  | weekly =>
    cases hempty : (rule.daysOfWeek.getD []).isEmpty <;> simp [hempty]
  | monthly => rfl
  | interval => exact absurd hc h

/-- C1: for a task whose rules avoid the interval cadence (the cadence the
claim leaves undefined), the determineTargetForDate of block-windows.ts,
evaluated at the day of week of the date as its caller does, returns zero
for an inactive task or a date outside the lexicographic date range, and
otherwise the sum of timesPerPeriod (default 1) over the rules matching
the date per the daily/weekly/monthly predicates, with one implicit daily
occurrence when the task owns no rule. -/
theorem c1_target_matches_spec (t : BW.TaskEntity) (date : DateISO)
    (hni : ∀ r ∈ t.periodRules, r.cadence ≠ BW.Cadence.interval) :
    BW.determineTargetForDate t date (isoDayOfWeek date) = specC1Target t date := by
  unfold BW.determineTargetForDate specC1Target
  rw [taskActiveOnDate_eq_not_or]
  cases hguard : (!t.active
      || (match t.startDate with
        | some s => dateLtB date s
        | none => false)
      || (match t.endDate with
        | some e => dateLtB e date
        | none => false)) with
  | true => simp
  | false =>
    cases hrules : t.periodRules with
    | nil =>
      simp [hrules, BW.createDefaultDailyRule, BW.ruleMatchesDate]
    | cons r rs =>
      rw [hrules] at hni
      simp only [List.isEmpty_cons, Bool.false_eq_true, if_false]
      rw [foldl_if_add_eq_sum]
      have hmap : (r :: rs).map
          (fun rr => if BW.ruleMatchesDate rr date (isoDayOfWeek date)
            then rr.timesPerPeriod.getD 1 else 0)
          = (r :: rs).map
            (fun rr => if specC1RuleMatches rr date then rr.timesPerPeriod.getD 1 else 0) := by
        apply List.map_congr_left
        intro a ha
        rw [ruleMatches_eq_spec a date (hni a ha)]
      rw [hmap]
      simp

/-- A concrete task for the C1 witness: an active habit with one weekly
rule firing twice on Mondays. -/
def c1Task : BW.TaskEntity :=
  { id := "t1", title := "Deep work", description := none, kind := "habit",
    active := true, startDate := none, endDate := none,
    periodRules := [{ id := "r1", cadence := BW.Cadence.weekly, timesPerPeriod := some 2,
                      period := "week", daysOfWeek := some [1], weekStart := none,
                      timezone := "UTC" }],
    timeRules := [], tags := [] }

/-- Witness for C1 at a concrete Monday, discharging the no-interval-rule
hypothesis. -/
theorem c1_target_matches_spec_witness :
    (∀ r ∈ c1Task.periodRules, r.cadence ≠ BW.Cadence.interval) ∧
      BW.determineTargetForDate c1Task ⟨2024, 6, 10⟩ (isoDayOfWeek ⟨2024, 6, 10⟩)
        = specC1Target c1Task ⟨2024, 6, 10⟩ :=
  ⟨by decide, c1_target_matches_spec c1Task ⟨2024, 6, 10⟩ (by decide)⟩

example : BW.determineTargetForDate c1Task ⟨2024, 6, 10⟩ (isoDayOfWeek ⟨2024, 6, 10⟩) = 2 := by
  decide

example : BW.determineTargetForDate c1Task ⟨2024, 6, 11⟩ (isoDayOfWeek ⟨2024, 6, 11⟩) = 0 := by
  decide

/-! ## C4: the Time-of-Day Resolver -/

/-- Start minute written from the claim wording: for an anytime rule or a
rule without a start time, clamp(0 - preGrace, 0, 1440); otherwise
clamp(minutes(startTime) - preGrace, 0, 1440). -/
def specC4Start (rule : BW.TimeRuleEntity) (o : BW.ResolveOptions) : Int :=
  if rule.anytime || BW.strFalsy rule.startTime then BW.clampMinute (0 - o.preGraceMinutes)
  else BW.clampMinute (BW.toMinutes (rule.startTime.getD "") - o.preGraceMinutes)

/-- End minute written from the claim wording: for an anytime rule or a
rule without a start time, clamp(1440 + postGrace, 0, 1440); with an end
time, clamp(minutes(endTime) + postGrace, 0, 1440); otherwise
clamp(minutes(startTime) + durationDefault + postGrace, 0, 1440) from the
un-graced start. -/
def specC4End (rule : BW.TimeRuleEntity) (o : BW.ResolveOptions) : Int :=
  if rule.anytime || BW.strFalsy rule.startTime then BW.clampMinute (1440 + o.postGraceMinutes)
  else if !BW.strFalsy rule.endTime then
    BW.clampMinute (BW.toMinutes (rule.endTime.getD "") + o.postGraceMinutes)
  else
    BW.clampMinute (BW.toMinutes (rule.startTime.getD "") + o.durationDefaultMinutes
      + o.postGraceMinutes)

/-- C4: for every time rule and every configuration with non-negative
grace and duration values, the resolver of block-windows.ts returns
exactly the start and end minutes of the claim formulas, and the rule is
dropped at the minute-interval guard exactly when the end minute does not
exceed the start minute. -/
theorem c4_resolver_matches_spec (rule : BW.TimeRuleEntity) (o : BW.ResolveOptions)
    (_hpre : 0 ≤ o.preGraceMinutes) (_hpost : 0 ≤ o.postGraceMinutes)
    (_hdur : 0 ≤ o.durationDefaultMinutes) :
    BW.resolveMinutesForRule rule o = (some (specC4Start rule o), some (specC4End rule o)) ∧
      (BW.ruleMinuteInterval rule o = none ↔ specC4End rule o ≤ specC4Start rule o) := by
  have heq : BW.resolveMinutesForRule rule o
      = (some (specC4Start rule o), some (specC4End rule o)) := by
    unfold BW.resolveMinutesForRule specC4Start specC4End
    cases hany : (rule.anytime || BW.strFalsy rule.startTime) with
    | true => simp [hany, BW.MINUTES_IN_DAY]
    | false =>
      cases hend : BW.strFalsy rule.endTime with
      | true => simp [hany, hend]
      | false => simp [hany, hend]
  refine ⟨heq, ?_⟩
  unfold BW.ruleMinuteInterval
  rw [heq]
  by_cases hle : specC4End rule o ≤ specC4Start rule o
  · simp [hle]
  · simp [hle]

/-- A concrete morning time rule for the C4 witness. -/
def c4Rule : BW.TimeRuleEntity :=
  { id := "tr1", startTime := some "09:00", endTime := some "10:00", anytime := false }

/-- A concrete grace configuration for the C4 witness. -/
def c4Opts : BW.ResolveOptions :=
  { durationDefaultMinutes := 60, preGraceMinutes := 5, postGraceMinutes := 5 }

/-- Witness for C4 at the 09:00 to 10:00 rule with five-minute graces,
discharging the non-negativity hypotheses. -/
theorem c4_resolver_matches_spec_witness :
    (0 : Int) ≤ c4Opts.preGraceMinutes ∧ (0 : Int) ≤ c4Opts.postGraceMinutes ∧
      (0 : Int) ≤ c4Opts.durationDefaultMinutes ∧
      (BW.resolveMinutesForRule c4Rule c4Opts
          = (some (specC4Start c4Rule c4Opts), some (specC4End c4Rule c4Opts)) ∧
        (BW.ruleMinuteInterval c4Rule c4Opts = none ↔
          specC4End c4Rule c4Opts ≤ specC4Start c4Rule c4Opts)) :=
  ⟨by decide, by decide, by decide,
    c4_resolver_matches_spec c4Rule c4Opts (by decide) (by decide) (by decide)⟩

example : BW.resolveMinutesForRule c4Rule c4Opts = (some 535, some 605) := by decide

example : BW.ruleMinuteInterval c4Rule c4Opts = some (535, 605) := by decide

/-! ## C8: invalid date format fails loudly -/

/-- C8: whenever the dateIso option fails the fixed-width YYYY-MM-DD
format test, buildBlockingWindows throws (the error value carries the
thrown message) and in particular never returns a window list. -/
theorem c8_invalid_date_throws (zdb : BW.ZoneDb) (tasks : List BW.TaskEntity)
    (opts : BW.BuildWindowOptions) (h : BW.isValidDateIso opts.dateIso = false) :
    BW.buildBlockingWindows zdb tasks opts
      = Except.error "Invalid date format. Expected YYYY-MM-DD" := by
  unfold BW.buildBlockingWindows
  simp [h]

/-- A trivial zone database for witnesses and counterexamples: every zone
resolves with offset zero at every instant. -/
def zdbZero : BW.ZoneDb := fun _ _ => 0

/-- Options with a malformed date for the C8 witness. -/
def c8Opts : BW.BuildWindowOptions :=
  { dateIso := "2024/06/10", timeZone := "UTC", redirectUrlDefault := "https://example.com" }

/-- Witness for C8 at a slash-separated date string. -/
theorem c8_invalid_date_throws_witness :
    BW.isValidDateIso c8Opts.dateIso = false ∧
      BW.buildBlockingWindows zdbZero [] c8Opts
        = Except.error "Invalid date format. Expected YYYY-MM-DD" :=
  ⟨by decide, c8_invalid_date_throws zdbZero [] c8Opts (by decide)⟩

example : BW.isValidDateIso "2024-06-10" = true := by decide
example : BW.isValidDateIso "2024-6-10" = false := by decide
example : BW.parseIsoDateParts "2024-06-10" = ⟨2024, 6, 10⟩ := by decide

/-! ## C6: the interval cadence disagreement between the two paths -/

theorem ruleMatches_bw_eq_hd (r : BW.PeriodRuleEntity) (date : DateISO) (w : Int)
    (h : r.cadence ≠ BW.Cadence.interval) :
    BW.ruleMatchesDate r date w = HD.ruleMatchesDate r date w := by
  unfold BW.ruleMatchesDate HD.ruleMatchesDate
  cases hc : r.cadence with
  | daily => rfl
  | weekly => rfl
  | monthly => rfl
  | interval => exact absurd hc h

/-- C6: the window-builder matcher of block-windows.ts accepts every
interval-cadence rule (default switch branch) while the day-stat matcher
of habit-dashboard.ts rejects it (explicit false branch), and on every
task none of whose rules has the interval cadence the two
determineTargetForDate computations agree. -/
theorem c6_interval_divergence :
    (∀ (r : BW.PeriodRuleEntity), r.cadence = BW.Cadence.interval →
      ∀ (date : DateISO) (w : Int),
        BW.ruleMatchesDate r date w = true ∧ HD.ruleMatchesDate r date w = false) ∧
      ∀ (t : BW.TaskEntity) (date : DateISO) (w : Int),
        (∀ r ∈ t.periodRules, r.cadence ≠ BW.Cadence.interval) →
          BW.determineTargetForDate t date w
            = HD.determineTargetForDate (toHabitTask t) date w := by
  constructor
  · intro r hr date w
    constructor
    · unfold BW.ruleMatchesDate
      rw [hr]
    · unfold HD.ruleMatchesDate
      rw [hr]
  · intro t date w hni
    unfold BW.determineTargetForDate HD.determineTargetForDate
    have hact : HD.taskActiveOnDate (toHabitTask t) date = BW.taskActiveOnDate t date := rfl
    rw [hact]
    cases hA : BW.taskActiveOnDate t date with
    | false => simp
    | true =>
      simp only [Bool.not_true, Bool.false_eq_true, if_false]
      have hpr : (toHabitTask t).periodRules = t.periodRules := rfl
      rw [hpr]
      cases hrules : t.periodRules with
      | nil =>
        simp [BW.createDefaultDailyRule, BW.ruleMatchesDate, HD.ruleMatchesDate]
      | cons r rs =>
        rw [hrules] at hni
        rw [foldl_if_add_eq_sum, foldl_if_add_eq_sum]
        simp only [List.isEmpty_cons, Bool.false_eq_true, if_false]
        have hmap : (r :: rs).map
            (fun rr => if BW.ruleMatchesDate rr date w then rr.timesPerPeriod.getD 1 else 0)
            = (r :: rs).map
              (fun rr => if HD.ruleMatchesDate rr date w then rr.timesPerPeriod.getD 1 else 0) := by
          apply List.map_congr_left
          intro a ha
          rw [ruleMatches_bw_eq_hd a date w (hni a ha)]
        rw [hmap]

/-- A task with a single interval rule, for the C6 witness. -/
def c6IntervalRule : BW.PeriodRuleEntity :=
  { id := "ri", cadence := BW.Cadence.interval, timesPerPeriod := some 3, period := "day",
    daysOfWeek := none, weekStart := none, timezone := "UTC" }

/-- Witness for C6: the matcher disagreement at a concrete interval rule
and date, and the agreement of the two targets on the concrete
no-interval task of the C1 witness. -/
theorem c6_interval_divergence_witness :
    (c6IntervalRule.cadence = BW.Cadence.interval ∧
      BW.ruleMatchesDate c6IntervalRule ⟨2024, 6, 10⟩ 1 = true ∧
      HD.ruleMatchesDate c6IntervalRule ⟨2024, 6, 10⟩ 1 = false) ∧
      ((∀ r ∈ c1Task.periodRules, r.cadence ≠ BW.Cadence.interval) ∧
        BW.determineTargetForDate c1Task ⟨2024, 6, 10⟩ 1
          = HD.determineTargetForDate (toHabitTask c1Task) ⟨2024, 6, 10⟩ 1) :=
  ⟨⟨by decide,
    (c6_interval_divergence.1 c6IntervalRule (by decide) ⟨2024, 6, 10⟩ 1).1,
    (c6_interval_divergence.1 c6IntervalRule (by decide) ⟨2024, 6, 10⟩ 1).2⟩,
    ⟨by decide, c6_interval_divergence.2 c1Task ⟨2024, 6, 10⟩ 1 (by decide)⟩⟩

/-! ## C5: streak statistics -/

/-- A day-stat entry that is not transparent: its required count is
nonzero. -/
def reqPos (e : DateISO × HD.DayStat) : Bool := e.2.required != 0

/-- The done flag of a day-stat entry. -/
def isDone (e : DateISO × HD.DayStat) : Bool := e.2.done

/-- The running-counter longest-streak scan written from the claim
wording, over the non-transparent done flags only: a done day extends the
counter and the observed maximum, a non-done day resets the counter to
zero. -/
def specLongestGo : List Bool → Nat → Nat → Nat
  | [], best, _ => best
  | b :: rest, best, cur =>
    if b then specLongestGo rest (max best (cur + 1)) (cur + 1)
    else specLongestGo rest best 0

/-- Streak statistics written from the claim wording.  seq is the
chronologically sorted non-transparent day sequence at or before the
reference date; current is the length of its trailing run of done days,
breakDate the first non-done day met scanning backwards (none when the
scan exhausts the range), and longest the maximum consecutive-done run of
the whole sequence. -/
def specC5Streak (dayStats : List (DateISO × HD.DayStat)) (ref : DateISO) : HD.StreakStats :=
  let seq := (HD.sortByDate (dayStats.filter (fun e => dateLeB e.1 ref))).filter reqPos
  { current := (seq.reverse.takeWhile isDone).length
    longest := specLongestGo (seq.map isDone) 0 0
    breakDate := (seq.reverse.dropWhile isDone).head?.map Prod.fst }

theorem currentScan_eq_filter (l : List (DateISO × HD.DayStat)) :
    HD.currentScan l = (((l.filter reqPos).takeWhile isDone).length,
      ((l.filter reqPos).dropWhile isDone).head?.map Prod.fst) := by
  induction l with
  | nil => rfl
  | cons e rest ih =>
    obtain ⟨d, st⟩ := e
    by_cases h0 : st.required = 0
    · simp [HD.currentScan, reqPos, h0, ih]
    · by_cases hd : st.done
      · simp [HD.currentScan, reqPos, isDone, h0, hd, ih]
      · simp [HD.currentScan, reqPos, isDone, h0, hd]

theorem longestScan_eq_filter (l : List (DateISO × HD.DayStat)) (best cur : Nat) :
    HD.longestScan l best cur = specLongestGo ((l.filter reqPos).map isDone) best cur := by
  induction l generalizing best cur with
  | nil => rfl
  | cons e rest ih =>
    obtain ⟨d, st⟩ := e
    by_cases h0 : st.required = 0
    · simp [HD.longestScan, reqPos, h0, ih]
    · by_cases hd : st.done
      · simp [HD.longestScan, specLongestGo, reqPos, isDone, h0, hd, ih]
      · simp [HD.longestScan, specLongestGo, reqPos, isDone, h0, hd, ih]

theorem insertByDate_split (e : DateISO × HD.DayStat) (l : List (DateISO × HD.DayStat)) :
    ∃ l1 l2, HD.insertByDate e l = l1 ++ e :: l2 ∧ l1 ++ l2 = l := by
  induction l with
  | nil => exact ⟨[], [], rfl, rfl⟩
  | cons x xs ih =>
    by_cases h : dateLeB e.1 x.1
    · exact ⟨[], x :: xs, by simp [HD.insertByDate, h], rfl⟩
    · obtain ⟨l1, l2, he, hl⟩ := ih
      exact ⟨x :: l1, l2, by simp [HD.insertByDate, h, he], by simp [hl]⟩

theorem filter_insertByDate (p : DateISO × HD.DayStat → Bool) (e : DateISO × HD.DayStat)
    (l : List (DateISO × HD.DayStat)) (hp : p e = false) :
    (HD.insertByDate e l).filter p = l.filter p := by
  obtain ⟨l1, l2, he, hl⟩ := insertByDate_split e l
  rw [he, ← hl]
  simp [List.filter_append, hp]

/-- C5: computeStreakStats of habit-dashboard.ts produces exactly the
claim streak statistics (trailing done run, first non-done day scanning
backwards, maximum done run with transparent days ignored), and inserting
a transparent (required = 0) day-stat entry anywhere at or before the
reference date never changes the result, so a transparent day between two
done days does not break a streak. -/
theorem c5_streak_matches_spec (dayStats : List (DateISO × HD.DayStat)) (ref : DateISO) :
    HD.computeStreakStats dayStats ref = specC5Streak dayStats ref ∧
      ∀ e : DateISO × HD.DayStat, e.2.required = 0 →
        HD.computeStreakStats (e :: dayStats) ref = HD.computeStreakStats dayStats ref := by
  have hmain : ∀ ds : List (DateISO × HD.DayStat),
      HD.computeStreakStats ds ref = specC5Streak ds ref := by
    intro ds
    simp only [HD.computeStreakStats, specC5Streak, currentScan_eq_filter,
      longestScan_eq_filter, List.filter_reverse]
  refine ⟨hmain dayStats, ?_⟩
  intro e he0
  rw [hmain (e :: dayStats), hmain dayStats]
  unfold specC5Streak
  have hreq : reqPos e = false := by simp [reqPos, he0]
  by_cases hle : dateLeB e.1 ref
  · have hfe : (e :: dayStats).filter (fun x => dateLeB x.1 ref)
        = e :: dayStats.filter (fun x => dateLeB x.1 ref) := by
      simp [hle]
    rw [hfe]
    have hsort : HD.sortByDate (e :: dayStats.filter (fun x => dateLeB x.1 ref))
        = HD.insertByDate e (HD.sortByDate (dayStats.filter (fun x => dateLeB x.1 ref))) := rfl
    rw [hsort, filter_insertByDate _ _ _ hreq]
  · have hfe : (e :: dayStats).filter (fun x => dateLeB x.1 ref)
        = dayStats.filter (fun x => dateLeB x.1 ref) := by
      simp [hle]
    rw [hfe]

/-- Witness for C5: the concrete five-day scenario of the specification
(done, done, missed, done, done) together with a transparent-day insertion
that leaves its streak statistics unchanged. -/
theorem c5_streak_matches_spec_witness :
    HD.computeStreakStats
        [(⟨2024, 6, 1⟩, ⟨1, 1, true⟩), (⟨2024, 6, 2⟩, ⟨1, 1, true⟩),
         (⟨2024, 6, 3⟩, ⟨1, 0, false⟩), (⟨2024, 6, 4⟩, ⟨1, 1, true⟩),
         (⟨2024, 6, 5⟩, ⟨1, 1, true⟩)] ⟨2024, 6, 5⟩
      = specC5Streak
        [(⟨2024, 6, 1⟩, ⟨1, 1, true⟩), (⟨2024, 6, 2⟩, ⟨1, 1, true⟩),
         (⟨2024, 6, 3⟩, ⟨1, 0, false⟩), (⟨2024, 6, 4⟩, ⟨1, 1, true⟩),
         (⟨2024, 6, 5⟩, ⟨1, 1, true⟩)] ⟨2024, 6, 5⟩ ∧
      ((⟨2024, 6, 2⟩, (⟨0, 0, true⟩ : HD.DayStat)) : DateISO × HD.DayStat).2.required = 0 ∧
      HD.computeStreakStats
          ((⟨2024, 6, 2⟩, ⟨0, 0, true⟩) ::
            [(⟨2024, 6, 1⟩, ⟨1, 1, true⟩), (⟨2024, 6, 2⟩, ⟨1, 1, true⟩),
             (⟨2024, 6, 3⟩, ⟨1, 0, false⟩), (⟨2024, 6, 4⟩, ⟨1, 1, true⟩),
             (⟨2024, 6, 5⟩, ⟨1, 1, true⟩)]) ⟨2024, 6, 5⟩
        = HD.computeStreakStats
          [(⟨2024, 6, 1⟩, ⟨1, 1, true⟩), (⟨2024, 6, 2⟩, ⟨1, 1, true⟩),
           (⟨2024, 6, 3⟩, ⟨1, 0, false⟩), (⟨2024, 6, 4⟩, ⟨1, 1, true⟩),
           (⟨2024, 6, 5⟩, ⟨1, 1, true⟩)] ⟨2024, 6, 5⟩ :=
  ⟨(c5_streak_matches_spec _ ⟨2024, 6, 5⟩).1, by decide,
    (c5_streak_matches_spec _ ⟨2024, 6, 5⟩).2 (⟨2024, 6, 2⟩, ⟨0, 0, true⟩) (by decide)⟩

/-! ## Merge invariants shared by the window claims -/

namespace BW

/-- Order of windows by start instant. -/
def leStart (a b : IntermediateWindow) : Prop := a.startUtc ≤ b.startUtc

/-- Two windows carry the same merge-compatibility attributes: timezone,
redirect target and severity. -/
def sameAttr (a b : IntermediateWindow) : Prop :=
  a.timeZone = b.timeZone ∧ a.redirectUrl = b.redirectUrl ∧ a.severity = b.severity

/-- Adjacent-window disjointness up to attributes: when the attributes
agree the earlier window ends strictly before the later one starts. -/
def gapOk (a b : IntermediateWindow) : Prop :=
  sameAttr a b → a.endUtc < b.startUtc

/-- A window of strictly positive duration. -/
def posWin (w : IntermediateWindow) : Prop := w.startUtc < w.endUtc

theorem mem_insertByStart {y w : IntermediateWindow} {l : List IntermediateWindow} :
    y ∈ insertByStart w l ↔ y = w ∨ y ∈ l := by
  induction l with
  | nil => simp [insertByStart]
  | cons x xs ih =>
    by_cases h : w.startUtc ≤ x.startUtc
    · simp [insertByStart, h]
    · simp only [insertByStart, h, if_false, List.mem_cons, ih]
      tauto

theorem insertByStart_perm (w : IntermediateWindow) (l : List IntermediateWindow) :
    List.Perm (insertByStart w l) (w :: l) := by
  induction l with
  | nil => exact List.Perm.refl _
  | cons x xs ih =>
    by_cases h : w.startUtc ≤ x.startUtc
    · simp only [insertByStart, h, if_true]
      exact List.Perm.refl _
    · simp only [insertByStart, h, if_false]
      exact List.Perm.trans (List.Perm.cons x ih) (List.Perm.swap w x xs)

theorem sortByStart_perm (l : List IntermediateWindow) : List.Perm (sortByStart l) l := by
  induction l with
  | nil => exact List.Perm.refl _
  | cons x xs ih =>
    exact List.Perm.trans (insertByStart_perm x (sortByStart xs)) (List.Perm.cons x ih)

theorem insertByStart_pairwise (w : IntermediateWindow) (l : List IntermediateWindow)
    (h : List.Pairwise leStart l) : List.Pairwise leStart (insertByStart w l) := by
  induction l with
  | nil => simp [insertByStart, leStart]
  | cons x xs ih =>
    rcases h with _ | ⟨hx, hxs⟩
    by_cases hle : w.startUtc ≤ x.startUtc
    · simp only [insertByStart, hle, if_true]
      refine List.Pairwise.cons ?_ (List.Pairwise.cons hx hxs)
      intro y hy
      rcases List.mem_cons.mp hy with hy | hy
      · subst hy
        exact hle
      · exact le_trans hle (hx y hy)
    · simp only [insertByStart, hle, if_false]
      refine List.Pairwise.cons ?_ (ih hxs)
      intro y hy
      rcases mem_insertByStart.mp hy with hy | hy
      · subst hy
        exact le_of_not_le hle
      · exact hx y hy

theorem sortByStart_pairwise (l : List IntermediateWindow) :
    List.Pairwise leStart (sortByStart l) := by
  induction l with
  | nil => exact List.Pairwise.nil
  | cons x xs ih => exact insertByStart_pairwise x (sortByStart xs) ih

theorem canMerge_false_gapOk {last w : IntermediateWindow}
    (h : canMerge last w = false) : gapOk last w := by
  intro hattr
  obtain ⟨h1, h2, h3⟩ := hattr
  unfold canMerge at h
  simp [h1, h2, h3] at h
  exact h

theorem mergeInto_attrs (last w : IntermediateWindow) :
    (mergeInto last w).timeZone = last.timeZone ∧
      (mergeInto last w).redirectUrl = last.redirectUrl ∧
      (mergeInto last w).severity = last.severity ∧
      (mergeInto last w).startUtc = last.startUtc ∧
      (mergeInto last w).endUtc = max last.endUtc w.endUtc := by
  unfold mergeInto
  exact ⟨rfl, rfl, rfl, rfl, rfl⟩

theorem mergeCore_nil (acc : List IntermediateWindow) : mergeCore acc [] = acc.reverse := by
  cases acc <;> rfl

theorem mergeCore_nil_cons (w : IntermediateWindow) (rest : List IntermediateWindow) :
    mergeCore [] (w :: rest) = mergeCore [w] rest := rfl

theorem mergeCore_cons_cons (last w : IntermediateWindow)
    (acc0 rest : List IntermediateWindow) :
    mergeCore (last :: acc0) (w :: rest)
      = if canMerge last w then mergeCore (mergeInto last w :: acc0) rest
        else mergeCore (w :: last :: acc0) rest := rfl

theorem mergeCore_chain (l : List IntermediateWindow) :
    ∀ (acc : List IntermediateWindow),
    List.Pairwise leStart l →
    List.Chain' (flip leStart) acc →
    List.Chain' (flip gapOk) acc →
    (∀ x ∈ l, ∀ h ∈ acc.head?, h.startUtc ≤ x.startUtc) →
    List.Chain' leStart (mergeCore acc l) ∧ List.Chain' gapOk (mergeCore acc l) := by
  induction l with
  | nil =>
    intro acc _ hacc1 hacc2 _
    rw [mergeCore_nil]
    exact ⟨List.chain'_reverse.mpr hacc1, List.chain'_reverse.mpr hacc2⟩
  | cons w rest ih =>
    intro acc hsort hacc1 hacc2 hhead
    rcases hsort with _ | ⟨hw, hrest⟩
    cases acc with
    | nil =>
      rw [mergeCore_nil_cons]
      refine ih [w] hrest (List.chain'_singleton w) (List.chain'_singleton w) ?_
      intro x hx h hh
      simp only [List.head?_cons, Option.mem_def, Option.some.injEq] at hh
      subst hh
      exact hw x hx
    | cons last acc0 =>
      rw [mergeCore_cons_cons]
      have hlastw : last.startUtc ≤ w.startUtc := by
        refine hhead w (by simp) last ?_
        simp
      by_cases hcm : canMerge last w
      · simp only [hcm, if_true]
        refine ih _ hrest ?_ ?_ ?_
        · cases acc0 with
          | nil => exact List.chain'_singleton _
          | cons a0 acc1 =>
            rw [List.chain'_cons] at hacc1 ⊢
            refine ⟨?_, hacc1.2⟩
            show a0.startUtc ≤ (mergeInto last w).startUtc
            have hst := (mergeInto_attrs last w).2.2.2.1
            have hr : a0.startUtc ≤ last.startUtc := hacc1.1
            omega
        · cases acc0 with
          | nil => exact List.chain'_singleton _
          | cons a0 acc1 =>
            rw [List.chain'_cons] at hacc2 ⊢
            refine ⟨?_, hacc2.2⟩
            intro hattr
            obtain ⟨z1, z2, z3, z4, z5⟩ := mergeInto_attrs last w
            have hattr0 : sameAttr a0 last := by
              refine ⟨?_, ?_, ?_⟩
              · rw [← z1]; exact hattr.1
              · rw [← z2]; exact hattr.2.1
              · rw [← z3]; exact hattr.2.2
            have hgap := hacc2.1 hattr0
            show a0.endUtc < (mergeInto last w).startUtc
            omega
        · intro x hx h hh
          simp only [List.head?_cons, Option.mem_def, Option.some.injEq] at hh
          subst hh
          have hst := (mergeInto_attrs last w).2.2.2.1
          have hx2 := hhead x (List.mem_cons_of_mem w hx) last (by simp)
          omega
      · simp only [hcm, if_false]
        refine ih _ hrest ?_ ?_ ?_
        · rw [List.chain'_cons]
          exact ⟨hlastw, hacc1⟩
        · rw [List.chain'_cons]
          exact ⟨canMerge_false_gapOk (by simpa using hcm), hacc2⟩
        · intro x hx h hh
          simp only [List.head?_cons, Option.mem_def, Option.some.injEq] at hh
          subst hh
          exact hw x hx

theorem mergeWindows_chain (ws : List IntermediateWindow) :
    List.Chain' leStart (mergeWindows ws) ∧ List.Chain' gapOk (mergeWindows ws) := by
  unfold mergeWindows
  refine mergeCore_chain (sortByStart ws) [] (sortByStart_pairwise ws) ?_ ?_ ?_
  · exact List.chain'_nil
  · exact List.chain'_nil
  · intro x hx h hh
    simp at hh

end BW

/-! ## C10: positive window durations -/

namespace BW

theorem mergeInto_pos {last w : IntermediateWindow} (h : posWin last) :
    posWin (mergeInto last w) := by
  obtain ⟨_, _, _, hst, hen⟩ := mergeInto_attrs last w
  unfold posWin at h ⊢
  omega

theorem mergeCore_pos (l : List IntermediateWindow) :
    ∀ (acc : List IntermediateWindow), (∀ w ∈ acc, posWin w) → (∀ w ∈ l, posWin w) →
      ∀ w ∈ mergeCore acc l, posWin w := by
  induction l with
  | nil =>
    intro acc hacc _ w hw
    rw [mergeCore_nil] at hw
    exact hacc w (List.mem_reverse.mp hw)
  | cons x rest ih =>
    intro acc hacc hl w hw
    have hx : posWin x := hl x (by simp)
    have hrest : ∀ v ∈ rest, posWin v := fun v hv => hl v (List.mem_cons_of_mem x hv)
    cases acc with
    | nil =>
      rw [mergeCore_nil_cons] at hw
      refine ih [x] ?_ hrest w hw
      intro v hv
      rw [List.mem_singleton] at hv
      subst hv
      exact hx
    | cons last acc0 =>
      rw [mergeCore_cons_cons] at hw
      have hlast : posWin last := hacc last (by simp)
      have hacc0 : ∀ v ∈ acc0, posWin v := fun v hv => hacc v (List.mem_cons_of_mem last hv)
      by_cases hcm : canMerge last x
      · rw [if_pos hcm] at hw
        refine ih _ ?_ hrest w hw
        intro v hv
        rcases List.mem_cons.mp hv with hv | hv
        · subst hv
          exact mergeInto_pos hlast
        · exact hacc0 v hv
      · rw [if_neg hcm] at hw
        refine ih _ ?_ hrest w hw
        intro v hv
        rcases List.mem_cons.mp hv with hv | hv
        · subst hv
          exact hx
        · rcases List.mem_cons.mp hv with hv | hv
          · subst hv
            exact hlast
          · exact hacc0 v hv

theorem candidateForRule_pos {zdb : ZoneDb} {date : DateISO} {tz : String}
    {sev : Severity} {reason redirect : String} {ropts : ResolveOptions}
    {rule : TimeRuleEntity} {w : IntermediateWindow}
    (h : candidateForRule zdb date tz sev reason redirect ropts rule = some w) :
    posWin w := by
  unfold candidateForRule at h
  split at h
  · exact absurd h (by simp)
  · split at h
    · rename_i sd ed hsd hed
      by_cases hle : ed.utc ≤ sd.utc
      · rw [if_pos hle] at h
        exact absurd h (by simp)
      · rw [if_neg hle] at h
        have hw := Option.some.inj h
        subst hw
        unfold posWin
        simp only
        omega
    · exact absurd h (by simp)

theorem candidatesForTask_pos {zdb : ZoneDb} {opts : BuildWindowOptions}
    {focusNames : List String} {date : DateISO} {dayOfWeek : Int} {t : TaskEntity}
    {w : IntermediateWindow}
    (h : w ∈ candidatesForTask zdb opts focusNames date dayOfWeek t) : posWin w := by
  unfold candidatesForTask at h
  split at h
  · exact absurd h (by simp)
  · split at h
    · exact absurd h (by simp)
    · simp only [] at h
      split at h
      · exact absurd h (by simp)
      · obtain ⟨rule, _, hr⟩ := List.mem_filterMap.mp h
        exact candidateForRule_pos hr

theorem windowCandidates_pos {zdb : ZoneDb} {opts : BuildWindowOptions} {date : DateISO}
    {tasks : List TaskEntity} {w : IntermediateWindow}
    (h : w ∈ windowCandidates zdb opts date tasks) : posWin w := by
  unfold windowCandidates at h
  obtain ⟨t, _, ht⟩ := List.mem_flatMap.mp h
  exact candidatesForTask_pos ht

end BW

/-- C10: every window in the output of the engine has strictly positive
duration: candidates are emitted only when the converted end instant
strictly exceeds the converted start instant, and merging only ever
extends the running window end to the maximum of the two ends, so every
returned start_at instant is strictly before its end_at instant. -/
theorem c10_windows_positive (zdb : BW.ZoneDb) (tasks : List BW.TaskEntity)
    (opts : BW.BuildWindowOptions) (date : DateISO) :
    ∀ p ∈ BW.buildBlockingWindowsCore zdb tasks opts date, p.startAt < p.endAt := by
  intro p hp
  unfold BW.buildBlockingWindowsCore at hp
  simp only [] at hp
  split at hp
  · exact absurd hp (by simp)
  · obtain ⟨w, hw, hpw⟩ := List.mem_map.mp hp
    have hpos : BW.posWin w := by
      unfold BW.mergeWindows at hw
      refine BW.mergeCore_pos _ [] (by intro v hv; exact absurd hv (by simp)) ?_ w hw
      intro v hv
      have hv2 : v ∈ BW.windowCandidates zdb opts date tasks :=
        (BW.sortByStart_perm _).mem_iff.mp hv
      exact BW.windowCandidates_pos hv2
    subst hpw
    exact hpos

/-- An active full-day focus task used by the window witnesses and
counterexamples. -/
def cwTaskFocus : BW.TaskEntity :=
  { id := "tf", title := "Focus block", description := none, kind := "habit",
    active := true, startDate := none, endDate := none, periodRules := [],
    timeRules := [], tags := ["focus"] }

/-- An active full-day task without tags, for the mixed-severity
counterexample. -/
def cwTaskPlain : BW.TaskEntity :=
  { id := "tp", title := "Plain block", description := none, kind := "habit",
    active := true, startDate := none, endDate := none, periodRules := [],
    timeRules := [], tags := [] }

/-- Window-builder options with zero graces and the focus-only filter
disabled. -/
def cwOpts : BW.BuildWindowOptions :=
  { dateIso := "2024-06-10", timeZone := "UTC", preGraceMinutes := 0,
    postGraceMinutes := 0, durationDefaultMinutes := 60, focusTagNames := ["focus"],
    focusOnly := false, redirectUrlDefault := "https://r.example" }

/-- Witness for C10: the concrete full-day window of the focus task has
positive duration. -/
theorem c10_windows_positive_witness :
    ∃ p ∈ BW.buildBlockingWindowsCore zdbZero [cwTaskFocus] cwOpts ⟨2024, 6, 10⟩,
      p.startAt < p.endAt := by
  refine ⟨⟨1717977600000, 1718064000000, "タスク: Focus block #focus",
    "https://r.example", BW.Severity.strict⟩, ?_, ?_⟩
  · decide
  · exact c10_windows_positive zdbZero [cwTaskFocus] cwOpts ⟨2024, 6, 10⟩ _ (by decide)

/-! ## C2: sortedness and overlap of the output -/

/-- Counterexample to C2: with the focus-only filter off, a focus task and
an untagged task both spanning the whole day yield two windows over the
same instants with different severities; the merge keeps both, so the
output is not pairwise non-overlapping. -/
theorem c2_counterexample :
    ¬ (List.Pairwise (fun a b => a.startAt ≤ b.startAt)
        (BW.buildBlockingWindowsCore zdbZero [cwTaskFocus, cwTaskPlain] cwOpts ⟨2024, 6, 10⟩) ∧
      List.Pairwise (fun a b => a.endAt ≤ b.startAt ∨ b.endAt ≤ a.startAt)
        (BW.buildBlockingWindowsCore zdbZero [cwTaskFocus, cwTaskPlain] cwOpts ⟨2024, 6, 10⟩)) := by
  decide

/-- C2 amended: the output of buildBlockingWindows is sorted ascending by
start instant, but pairwise disjointness only holds between consecutive
windows that agree on timezone, redirect target and severity (the earlier
one then ends strictly before the later one starts); windows with
differing policy attributes may overlap. -/
theorem c2_amended_sorted_adjacent_disjoint (zdb : BW.ZoneDb) (tasks : List BW.TaskEntity)
    (opts : BW.BuildWindowOptions) (date : DateISO) :
    List.Chain' (fun a b => a.startAt ≤ b.startAt)
        (BW.buildBlockingWindowsCore zdb tasks opts date) ∧
      List.Chain' BW.leStart (BW.mergeWindows (BW.windowCandidates zdb opts date tasks)) ∧
      List.Chain' BW.gapOk (BW.mergeWindows (BW.windowCandidates zdb opts date tasks)) := by
  obtain ⟨h1, h2⟩ := BW.mergeWindows_chain (BW.windowCandidates zdb opts date tasks)
  refine ⟨?_, h1, h2⟩
  unfold BW.buildBlockingWindowsCore
  simp only []
  split
  · exact List.chain'_nil
  · rw [List.chain'_map]
    exact h1

/-! ## C3: the merge step and its tie-break -/

/-- The candidate order claimed by the specification: ascending by start
instant with ties broken by end instant ascending. -/
def specC3Le (a b : BW.IntermediateWindow) : Bool :=
  decide (a.startUtc < b.startUtc) ||
    (a.startUtc == b.startUtc && decide (a.endUtc ≤ b.endUtc))

/-- Insertion under the claimed order. -/
def specC3Insert (w : BW.IntermediateWindow) :
    List BW.IntermediateWindow → List BW.IntermediateWindow
  | [] => [w]
  | x :: xs => if specC3Le w x then w :: x :: xs else x :: specC3Insert w xs

/-- Sort under the claimed order. -/
def specC3Sort : List BW.IntermediateWindow → List BW.IntermediateWindow
  | [] => []
  | w :: ws => specC3Insert w (specC3Sort ws)

/-- The merge walk run on candidates ordered with the claimed end-instant
tie-break. -/
def specC3Merge (ws : List BW.IntermediateWindow) : List BW.IntermediateWindow :=
  BW.mergeCore [] (specC3Sort ws)

/-- Two same-attribute candidates with equal starts and different ends,
carrying distinct reasons. -/
def c3WinA : BW.IntermediateWindow :=
  { startUtc := 0, endUtc := 10, redirectUrl := "https://r.example",
    severity := BW.Severity.strict, reasons := ["a"], timeZone := "UTC" }

/-- The shorter tied candidate. -/
def c3WinB : BW.IntermediateWindow :=
  { startUtc := 0, endUtc := 5, redirectUrl := "https://r.example",
    severity := BW.Severity.strict, reasons := ["b"], timeZone := "UTC" }

/-- Counterexample to C3: the source sorts by start only (ties keep input
order), so on two candidates tied on start the merged reason string lists
the longer-first input order, while the claimed end-ascending tie-break
would list the shorter window first. -/
theorem c3_counterexample :
    BW.mergeWindows [c3WinA, c3WinB] ≠ specC3Merge [c3WinA, c3WinB] := by
  decide

theorem filter_insertByStart (w : BW.IntermediateWindow) (l : List BW.IntermediateWindow)
    (s : Int) :
    (BW.insertByStart w l).filter (fun v => v.startUtc == s)
      = (w :: l).filter (fun v => v.startUtc == s) := by
  induction l with
  | nil => rfl
  | cons x xs ih =>
    by_cases hle : w.startUtc ≤ x.startUtc
    · simp only [BW.insertByStart, hle, if_true]
    · simp only [BW.insertByStart, hle, if_false]
      have hlt : x.startUtc < w.startUtc := lt_of_not_le hle
      by_cases hx : x.startUtc == s
      · have hxv : x.startUtc = s := by simpa using hx
        have hw : (w.startUtc == s) = false := by
          have hne : w.startUtc ≠ s := by omega
          simpa using hne
        simp [List.filter_cons, hx, hw, ih]
      · simp [List.filter_cons, hx, ih]

/-- C3 amended: the source merge sorts the candidates ascending by start
instant only, stably, so candidates tied on start keep their input order
(there is no end-instant tie-break); the walk then merges into the last
emitted window exactly under equal attributes and start at most the
running end, extending the end to the maximum and uniting the reasons.
The sort is characterised as: sorted by start, a permutation of the input,
and preserving the input order inside every class of equal starts. -/
theorem c3_amended_stable_sort_merge (ws : List BW.IntermediateWindow) :
    List.Pairwise BW.leStart (BW.sortByStart ws) ∧
      List.Perm (BW.sortByStart ws) ws ∧
      (∀ s : Int, (BW.sortByStart ws).filter (fun w => w.startUtc == s)
        = ws.filter (fun w => w.startUtc == s)) ∧
      BW.mergeWindows ws = BW.mergeCore [] (BW.sortByStart ws) := by
  refine ⟨BW.sortByStart_pairwise ws, BW.sortByStart_perm ws, ?_, rfl⟩
  intro s
  induction ws with
  | nil => rfl
  | cons x xs ih =>
    calc (BW.sortByStart (x :: xs)).filter (fun w => w.startUtc == s)
        = (x :: BW.sortByStart xs).filter (fun w => w.startUtc == s) :=
          filter_insertByStart x (BW.sortByStart xs) s
      _ = (x :: xs).filter (fun w => w.startUtc == s) := by
          simp only [List.filter_cons, ih]

/-! ## C7: permutation behaviour of the merge -/

namespace BW

/-- Projection of a window onto its interval of instants. -/
def winIv (w : IntermediateWindow) : Int × Int := (w.startUtc, w.endUtc)

/-- Order of interval pairs by start. -/
def leFst (a b : Int × Int) : Prop := a.1 ≤ b.1

/-- The merge walk on bare intervals, the image of mergeCore under winIv
when every candidate carries the same attributes. -/
def mergeIvCore : List (Int × Int) → List (Int × Int) → List (Int × Int)
  | acc, [] => acc.reverse
  | [], q :: rest => mergeIvCore [q] rest
  | (s, e) :: acc, (qs, qe) :: rest =>
    if qs ≤ e then mergeIvCore ((s, max e qe) :: acc) rest
    else mergeIvCore ((qs, qe) :: (s, e) :: acc) rest

theorem mergeIvCore_nil (acc : List (Int × Int)) : mergeIvCore acc [] = acc.reverse := by
  cases acc with
  | nil => rfl
  | cons q acc0 => obtain ⟨s, e⟩ := q; rfl

theorem mergeIvCore_nil_cons (q : Int × Int) (rest : List (Int × Int)) :
    mergeIvCore [] (q :: rest) = mergeIvCore [q] rest := rfl

theorem mergeIvCore_cons_cons (s e qs qe : Int) (acc rest : List (Int × Int)) :
    mergeIvCore ((s, e) :: acc) ((qs, qe) :: rest)
      = if qs ≤ e then mergeIvCore ((s, max e qe) :: acc) rest
        else mergeIvCore ((qs, qe) :: (s, e) :: acc) rest := rfl

theorem foldl_max_shift (l : List (Int × Int)) :
    ∀ a b : Int, l.foldl (fun x q => max x q.2) (max a b)
      = max a (l.foldl (fun x q => max x q.2) b) := by
  induction l with
  | nil => intro a b; rfl
  | cons q t ih =>
    intro a b
    have h1 : max (max a b) q.2 = max a (max b q.2) := by omega
    calc (q :: t).foldl (fun x q => max x q.2) (max a b)
        = t.foldl (fun x q => max x q.2) (max (max a b) q.2) := rfl
      _ = t.foldl (fun x q => max x q.2) (max a (max b q.2)) := by rw [h1]
      _ = max a (t.foldl (fun x q => max x q.2) (max b q.2)) := ih a (max b q.2)
      _ = max a ((q :: t).foldl (fun x q => max x q.2) b) := rfl

theorem foldl_max_perm {l1 l2 : List (Int × Int)} (h : l1.Perm l2) :
    ∀ a : Int, l1.foldl (fun x q => max x q.2) a = l2.foldl (fun x q => max x q.2) a := by
  induction h with
  | nil => intro a; rfl
  | cons x _ ih => intro a; simpa using ih (max a x.2)
  | swap x y l =>
    intro a
    have h1 : max (max a y.2) x.2 = max (max a x.2) y.2 := by omega
    simp only [List.foldl_cons]
    rw [h1]
  | trans _ _ ih1 ih2 => intro a; rw [ih1, ih2]

/-- Processing a run of intervals that all start at the same instant m
from a running window whose end is at least m: every element of the run
merges, and the running end becomes the maximum of the old end and the run
ends. -/
theorem mergeIvCore_run (B : List (Int × Int)) (m : Int)
    (hm : ∀ q ∈ B, q.1 = m) :
    ∀ (s e : Int) (acc R : List (Int × Int)), m ≤ e →
      mergeIvCore ((s, e) :: acc) (B ++ R)
        = mergeIvCore ((s, B.foldl (fun x q => max x q.2) e) :: acc) R := by
  induction B with
  | nil => intro s e acc R _; rfl
  | cons q B' ih =>
    intro s e acc R hme
    obtain ⟨qs, qe⟩ := q
    have hqm : qs = m := hm (qs, qe) (by simp)
    have hle : qs ≤ e := by omega
    calc mergeIvCore ((s, e) :: acc) (((qs, qe) :: B') ++ R)
        = mergeIvCore ((s, max e qe) :: acc) (B' ++ R) := by
          rw [List.cons_append, mergeIvCore_cons_cons, if_pos hle]
      _ = mergeIvCore ((s, B'.foldl (fun x q => max x q.2) (max e qe)) :: acc) R := by
          refine ih (fun p hp => hm p (List.mem_cons_of_mem _ hp)) s (max e qe) acc R ?_
          omega
      _ = mergeIvCore ((s, ((qs, qe) :: B').foldl (fun x q => max x q.2) e) :: acc) R := rfl

/-- The state change a nonempty equal-start run induces on the merge walk:
it depends only on the start instant m and the maximum X of m and the run
ends. -/
def runStep (acc : List (Int × Int)) (m X : Int) : List (Int × Int) :=
  match acc with
  | [] => [(m, X)]
  | (s, e) :: rest => if m ≤ e then (s, max e X) :: rest else (m, X) :: (s, e) :: rest

theorem runStep_nil (m X : Int) : runStep [] m X = [(m, X)] := rfl

theorem runStep_cons (s e m X : Int) (rest : List (Int × Int)) :
    runStep ((s, e) :: rest) m X
      = if m ≤ e then (s, max e X) :: rest else (m, X) :: (s, e) :: rest := rfl

theorem mergeIvCore_block (B : List (Int × Int)) (m : Int) (acc R : List (Int × Int))
    (hm : ∀ q ∈ B, q.1 = m) (hpos : ∀ q ∈ B, q.1 < q.2) (hne : B ≠ []) :
    mergeIvCore acc (B ++ R)
      = mergeIvCore (runStep acc m (B.foldl (fun x q => max x q.2) m)) R := by
  obtain ⟨q, B', rfl⟩ : ∃ q B', B = q :: B' := by
    cases B with
    | nil => exact absurd rfl hne
    | cons q B' => exact ⟨q, B', rfl⟩
  obtain ⟨qs, qe⟩ := q
  have hqm : qs = m := hm (qs, qe) (by simp)
  have hqe : m < qe := by
    have := hpos (qs, qe) (by simp)
    omega
  have hfold : ((qs, qe) :: B').foldl (fun x q => max x q.2) m
      = B'.foldl (fun x q => max x q.2) qe := by
    have : max m qe = qe := by omega
    simp only [List.foldl_cons]
    rw [this]
  cases acc with
  | nil =>
    calc mergeIvCore [] (((qs, qe) :: B') ++ R)
        = mergeIvCore [(qs, qe)] (B' ++ R) := by
          rw [List.cons_append, mergeIvCore_nil_cons]
      _ = mergeIvCore [(qs, B'.foldl (fun x q => max x q.2) qe)] R := by
          refine mergeIvCore_run B' m (fun p hp => hm p (List.mem_cons_of_mem _ hp))
            qs qe [] R ?_
          omega
      _ = mergeIvCore (runStep [] m (((qs, qe) :: B').foldl (fun x q => max x q.2) m)) R := by
          rw [hfold, runStep_nil, hqm]
  | cons a acc0 =>
    obtain ⟨s, e⟩ := a
    by_cases hme : m ≤ e
    · have hqse : qs ≤ e := by omega
      calc mergeIvCore ((s, e) :: acc0) (((qs, qe) :: B') ++ R)
          = mergeIvCore ((s, ((qs, qe) :: B').foldl (fun x q => max x q.2) e) :: acc0) R := by
            exact mergeIvCore_run ((qs, qe) :: B') m hm s e acc0 R hme
        _ = mergeIvCore (runStep ((s, e) :: acc0) m
              (((qs, qe) :: B').foldl (fun x q => max x q.2) m)) R := by
            rw [runStep_cons, if_pos hme, hfold]
            have h2 : ((qs, qe) :: B').foldl (fun x q => max x q.2) e
                = max e (B'.foldl (fun x q => max x q.2) qe) := by
              have h3 : max e qe = max e qe := rfl
              calc ((qs, qe) :: B').foldl (fun x q => max x q.2) e
                  = B'.foldl (fun x q => max x q.2) (max e qe) := rfl
                _ = max e (B'.foldl (fun x q => max x q.2) qe) := foldl_max_shift B' e qe
            rw [h2]
    · have hqse : ¬ qs ≤ e := by omega
      calc mergeIvCore ((s, e) :: acc0) (((qs, qe) :: B') ++ R)
          = mergeIvCore ((qs, qe) :: (s, e) :: acc0) (B' ++ R) := by
            rw [List.cons_append, mergeIvCore_cons_cons, if_neg hqse]
        _ = mergeIvCore ((qs, B'.foldl (fun x q => max x q.2) qe) :: (s, e) :: acc0) R := by
            refine mergeIvCore_run B' m (fun p hp => hm p (List.mem_cons_of_mem _ hp))
              qs qe ((s, e) :: acc0) R ?_
            omega
        _ = mergeIvCore (runStep ((s, e) :: acc0) m
              (((qs, qe) :: B').foldl (fun x q => max x q.2) m)) R := by
            rw [runStep_cons, if_neg hme, hfold, hqm]

end BW

namespace BW

theorem takeWhile_eq_filter_min (m : Int) :
    ∀ (l : List (Int × Int)), (∀ x ∈ l, m ≤ x.1) → List.Pairwise leFst l →
      l.takeWhile (fun q => q.1 == m) = l.filter (fun q => q.1 == m) ∧
        l.dropWhile (fun q => q.1 == m) = l.filter (fun q => !(q.1 == m)) := by
  intro l
  induction l with
  | nil => intro _ _; exact ⟨rfl, rfl⟩
  | cons x xs ih =>
    intro hmin hs
    rcases hs with _ | ⟨hx, hxs⟩
    cases hq : (x.1 == m) with
    | true =>
      obtain ⟨h1, h2⟩ := ih (fun y hy => hmin y (List.mem_cons_of_mem _ hy)) hxs
      simp [List.takeWhile_cons, List.dropWhile_cons, List.filter_cons, hq, h1, h2]
    | false =>
      have hxm : m < x.1 := by
        have h1 := hmin x (by simp)
        have hne : x.1 ≠ m := by simpa using hq
        omega
      have hall : ∀ y ∈ xs, (y.1 == m) = false := by
        intro y hy
        have h2 : x.1 ≤ y.1 := hx y hy
        have h3 : y.1 ≠ m := by omega
        simpa using h3
      have hfil1 : (x :: xs).filter (fun q => q.1 == m) = [] := by
        rw [List.filter_eq_nil_iff]
        intro a ha
        rcases List.mem_cons.mp ha with ha | ha
        · subst ha
          simp [hq]
        · simp [hall a ha]
      have hfil2 : (x :: xs).filter (fun q => !(q.1 == m)) = x :: xs := by
        rw [List.filter_eq_self]
        intro a ha
        rcases List.mem_cons.mp ha with ha | ha
        · subst ha
          simp [hq]
        · simp [hall a ha]
      constructor
      · rw [hfil1]
        simp [List.takeWhile_cons, hq]
      · rw [hfil2]
        simp [List.dropWhile_cons, hq]

theorem mergeIvCore_perm (n : Nat) :
    ∀ (lv1 lv2 acc : List (Int × Int)), lv1.length ≤ n →
      lv1.Perm lv2 → List.Pairwise leFst lv1 → List.Pairwise leFst lv2 →
      (∀ q ∈ lv1, q.1 < q.2) →
      mergeIvCore acc lv1 = mergeIvCore acc lv2 := by
  induction n with
  | zero =>
    intro lv1 lv2 acc hlen hperm _ _ _
    have h1 : lv1 = [] := List.length_eq_zero.mp (Nat.le_zero.mp hlen)
    subst h1
    have h2 : lv2 = [] := hperm.symm.eq_nil
    subst h2
    rfl
  | succ n ih =>
    intro lv1 lv2 acc hlen hperm hs1 hs2 hpos
    cases lv1 with
    | nil =>
      have h2 : lv2 = [] := hperm.symm.eq_nil
      subst h2
      rfl
    | cons p t1 =>
      cases lv2 with
      | nil => exact absurd hperm.eq_nil (by simp)
      | cons p2 t2 =>
        have hmin1 : ∀ x ∈ p :: t1, p.1 ≤ x.1 := by
          intro x hx
          rcases List.mem_cons.mp hx with hx | hx
          · subst hx; exact le_refl _
          · rcases hs1 with _ | ⟨hp, _⟩
            exact hp x hx
        have hmin2 : ∀ x ∈ p2 :: t2, p2.1 ≤ x.1 := by
          intro x hx
          rcases List.mem_cons.mp hx with hx | hx
          · subst hx; exact le_refl _
          · rcases hs2 with _ | ⟨hp, _⟩
            exact hp x hx
        have hm2 : p2.1 = p.1 := by
          have ha : p.1 ≤ p2.1 := hmin1 p2 (hperm.symm.mem_iff.mp (by simp))
          have hb : p2.1 ≤ p.1 := hmin2 p (hperm.mem_iff.mp (by simp))
          omega
        have hmin2' : ∀ x ∈ p2 :: t2, p.1 ≤ x.1 := by
          intro x hx
          have := hmin2 x hx
          omega
        obtain ⟨htw1, hdw1⟩ := takeWhile_eq_filter_min p.1 (p :: t1) hmin1 hs1
        obtain ⟨htw2, hdw2⟩ := takeWhile_eq_filter_min p.1 (p2 :: t2) hmin2' hs2
        have hsplit1 : p :: t1
            = (p :: t1).takeWhile (fun q => q.1 == p.1)
              ++ (p :: t1).dropWhile (fun q => q.1 == p.1) :=
          (List.takeWhile_append_dropWhile _ _).symm
        have hsplit2 : p2 :: t2
            = (p2 :: t2).takeWhile (fun q => q.1 == p.1)
              ++ (p2 :: t2).dropWhile (fun q => q.1 == p.1) :=
          (List.takeWhile_append_dropWhile _ _).symm
        have hBperm : ((p :: t1).filter (fun q => q.1 == p.1)).Perm
            ((p2 :: t2).filter (fun q => q.1 == p.1)) := hperm.filter _
        have hRperm : ((p :: t1).filter (fun q => !(q.1 == p.1))).Perm
            ((p2 :: t2).filter (fun q => !(q.1 == p.1))) := hperm.filter _
        have hBm1 : ∀ q ∈ (p :: t1).filter (fun q => q.1 == p.1), q.1 = p.1 := by
          intro q hq
          have := List.of_mem_filter hq
          simpa using this
        have hBm2 : ∀ q ∈ (p2 :: t2).filter (fun q => q.1 == p.1), q.1 = p.1 := by
          intro q hq
          have := List.of_mem_filter hq
          simpa using this
        have hBpos1 : ∀ q ∈ (p :: t1).filter (fun q => q.1 == p.1), q.1 < q.2 :=
          fun q hq => hpos q (List.mem_of_mem_filter hq)
        have hBpos2 : ∀ q ∈ (p2 :: t2).filter (fun q => q.1 == p.1), q.1 < q.2 := by
          intro q hq
          exact hpos q (hperm.symm.mem_iff.mp (List.mem_of_mem_filter hq))
        have hBne1 : (p :: t1).filter (fun q => q.1 == p.1) ≠ [] := by
          intro hnil
          have : p ∈ (p :: t1).filter (fun q => q.1 == p.1) :=
            List.mem_filter.mpr ⟨by simp, by simp⟩
          rw [hnil] at this
          exact absurd this (by simp)
        have hBne2 : (p2 :: t2).filter (fun q => q.1 == p.1) ≠ [] := by
          intro hnil
          have : p2 ∈ (p2 :: t2).filter (fun q => q.1 == p.1) :=
            List.mem_filter.mpr ⟨by simp, by simp [hm2]⟩
          rw [hnil] at this
          exact absurd this (by simp)
        have hfoldeq : ((p :: t1).filter (fun q => q.1 == p.1)).foldl
              (fun x q => max x q.2) p.1
            = ((p2 :: t2).filter (fun q => q.1 == p.1)).foldl (fun x q => max x q.2) p.1 :=
          foldl_max_perm hBperm p.1
        have hstep1 : mergeIvCore acc (p :: t1)
            = mergeIvCore (runStep acc p.1
                (((p :: t1).filter (fun q => q.1 == p.1)).foldl (fun x q => max x q.2) p.1))
              ((p :: t1).filter (fun q => !(q.1 == p.1))) := by
          conv_lhs => rw [hsplit1, htw1, hdw1]
          exact mergeIvCore_block _ p.1 acc _ hBm1 hBpos1 hBne1
        have hstep2 : mergeIvCore acc (p2 :: t2)
            = mergeIvCore (runStep acc p.1
                (((p2 :: t2).filter (fun q => q.1 == p.1)).foldl (fun x q => max x q.2) p.1))
              ((p2 :: t2).filter (fun q => !(q.1 == p.1))) := by
          conv_lhs => rw [hsplit2, htw2, hdw2]
          exact mergeIvCore_block _ p.1 acc _ hBm2 hBpos2 hBne2
        rw [hstep1, hstep2, ← hfoldeq]
        have hlenR : ((p :: t1).filter (fun q => !(q.1 == p.1))).length ≤ n := by
          have hsum : ((p :: t1).takeWhile (fun q => q.1 == p.1)).length
              + ((p :: t1).dropWhile (fun q => q.1 == p.1)).length = (p :: t1).length := by
            rw [← List.length_append, List.takeWhile_append_dropWhile]
          have hBlen : 0 < ((p :: t1).filter (fun q => q.1 == p.1)).length :=
            List.length_pos.mpr hBne1
          rw [htw1, hdw1] at hsum
          simp only [List.length_cons] at hlen hsum
          omega
        refine ih _ _ _ hlenR hRperm ?_ ?_ ?_
        · rw [← hdw1]
          exact List.Pairwise.sublist (List.dropWhile_sublist _) hs1
        · rw [← hdw2]
          exact List.Pairwise.sublist (List.dropWhile_sublist _) hs2
        · intro q hq
          exact hpos q (List.mem_of_mem_filter hq)

end BW

namespace BW

theorem mergeCore_map_iv : ∀ (l acc : List IntermediateWindow),
    (∀ a ∈ acc ++ l, ∀ b ∈ acc ++ l, sameAttr a b) →
    (mergeCore acc l).map winIv = mergeIvCore (acc.map winIv) (l.map winIv) := by
  intro l
  induction l with
  | nil =>
    intro acc _
    rw [mergeCore_nil]
    simp only [List.map_nil]
    rw [mergeIvCore_nil, List.map_reverse]
  | cons w rest ih =>
    intro acc hattr
    cases acc with
    | nil =>
      rw [mergeCore_nil_cons]
      exact ih [w] hattr
    | cons last acc0 =>
      have hsame : sameAttr last w :=
        hattr last (by simp) w (by simp)
      obtain ⟨h1, h2, h3⟩ := hsame
      have hcm : canMerge last w = decide (w.startUtc ≤ last.endUtc) := by
        simp [canMerge, h1, h2, h3]
      rw [mergeCore_cons_cons]
      have hmap : (last :: acc0).map winIv = (last.startUtc, last.endUtc) :: acc0.map winIv :=
        rfl
      have hmap2 : (w :: rest).map winIv = (w.startUtc, w.endUtc) :: rest.map winIv := rfl
      rw [hmap, hmap2, mergeIvCore_cons_cons]
      by_cases hle : w.startUtc ≤ last.endUtc
      · have hct : canMerge last w = true := by
          rw [hcm]
          simpa using hle
        simp only [hct, if_true, hle]
        have hattr2 : ∀ a ∈ (mergeInto last w :: acc0) ++ rest,
            ∀ b ∈ (mergeInto last w :: acc0) ++ rest, sameAttr a b := by
          have hrep : ∀ a ∈ (mergeInto last w :: acc0) ++ rest,
              ∃ a0 ∈ (last :: acc0) ++ (w :: rest),
                a.timeZone = a0.timeZone ∧ a.redirectUrl = a0.redirectUrl ∧
                  a.severity = a0.severity := by
            intro a ha
            rcases List.mem_append.mp ha with ha | ha
            · rcases List.mem_cons.mp ha with ha | ha
              · subst ha
                exact ⟨last, by simp, rfl, rfl, rfl⟩
              · exact ⟨a, by simp [ha], rfl, rfl, rfl⟩
            · exact ⟨a, by simp [ha], rfl, rfl, rfl⟩
          intro a ha b hb
          obtain ⟨a0, ha0, ja1, ja2, ja3⟩ := hrep a ha
          obtain ⟨b0, hb0, jb1, jb2, jb3⟩ := hrep b hb
          obtain ⟨k1, k2, k3⟩ := hattr a0 ha0 b0 hb0
          exact ⟨ja1.trans (k1.trans jb1.symm), ja2.trans (k2.trans jb2.symm),
            ja3.trans (k3.trans jb3.symm)⟩
        calc (mergeCore (mergeInto last w :: acc0) rest).map winIv
            = mergeIvCore ((mergeInto last w :: acc0).map winIv) (rest.map winIv) :=
              ih _ hattr2
          _ = mergeIvCore ((last.startUtc, max last.endUtc w.endUtc) :: acc0.map winIv)
              (rest.map winIv) := rfl
      · have hcf : canMerge last w = false := by
          rw [hcm]
          simpa using hle
        simp only [hcf, Bool.false_eq_true, if_false, hle]
        have hattr3 : ∀ a ∈ (w :: last :: acc0) ++ rest,
            ∀ b ∈ (w :: last :: acc0) ++ rest, sameAttr a b := by
          intro a ha b hb
          have hmem : ∀ c ∈ (w :: last :: acc0) ++ rest, c ∈ (last :: acc0) ++ (w :: rest) := by
            intro c hc
            rcases List.mem_append.mp hc with hc | hc
            · rcases List.mem_cons.mp hc with hc | hc
              · subst hc; simp
              · rcases List.mem_cons.mp hc with hc | hc
                · subst hc; simp
                · simp [hc]
            · simp [hc]
          exact hattr a (hmem a ha) b (hmem b hb)
        calc (mergeCore (w :: last :: acc0) rest).map winIv
            = mergeIvCore ((w :: last :: acc0).map winIv) (rest.map winIv) := ih _ hattr3
          _ = mergeIvCore ((w.startUtc, w.endUtc) :: (last.startUtc, last.endUtc)
              :: acc0.map winIv) (rest.map winIv) := rfl

end BW

/-- A focus task with a 00:00 to 00:10 time rule. -/
def c7TaskX1 : BW.TaskEntity :=
  { id := "x1", title := "X1", description := none, kind := "habit", active := true,
    startDate := none, endDate := none, periodRules := [],
    timeRules := [{ id := "x1t", startTime := some "00:00", endTime := some "00:10",
                    anytime := false }],
    tags := ["focus"] }

/-- An untagged task with the same 00:00 to 00:10 time rule; with the
focus-only filter off it yields a lenient window. -/
def c7TaskY : BW.TaskEntity :=
  { id := "y", title := "Y", description := none, kind := "habit", active := true,
    startDate := none, endDate := none, periodRules := [],
    timeRules := [{ id := "yt", startTime := some "00:00", endTime := some "00:10",
                    anytime := false }],
    tags := [] }

/-- A focus task with a 00:05 to 00:20 time rule overlapping the first. -/
def c7TaskX2 : BW.TaskEntity :=
  { id := "x2", title := "X2", description := none, kind := "habit", active := true,
    startDate := none, endDate := none, periodRules := [],
    timeRules := [{ id := "x2t", startTime := some "00:05", endTime := some "00:20",
                    anytime := false }],
    tags := ["focus"] }

/-- Counterexample to C7: swapping the first two tasks changes the merged
output.  In one order the strict candidate next to the strict 00:05 to
00:20 candidate merges with it; in the other a lenient candidate sits
between them in the walk, so the merge is blocked and an extra window is
emitted. -/
theorem c7_counterexample :
    List.Perm [c7TaskY, c7TaskX1, c7TaskX2] [c7TaskX1, c7TaskY, c7TaskX2] ∧
      BW.buildBlockingWindowsCore zdbZero [c7TaskY, c7TaskX1, c7TaskX2] cwOpts ⟨2024, 6, 10⟩
        ≠ BW.buildBlockingWindowsCore zdbZero [c7TaskX1, c7TaskY, c7TaskX2] cwOpts
          ⟨2024, 6, 10⟩ := by
  constructor
  · exact List.Perm.swap c7TaskX1 c7TaskY [c7TaskX2]
  · decide

/-- C7 amended: permuting the task list always permutes the candidate
windows, and when all candidates share one timezone, redirect target and
severity, the merged outputs of the two orders carry the same start and
end instants in the same order; only the order inside the merged reason
strings may differ.  Counterexample c7_counterexample shows that with
mixed attributes even the set of merged intervals can change. -/
theorem c7_amended_perm_uniform_attrs (zdb : BW.ZoneDb) (opts : BW.BuildWindowOptions)
    (date : DateISO) (ts1 ts2 : List BW.TaskEntity) (hperm : ts1.Perm ts2)
    (hattr : ∀ a ∈ BW.windowCandidates zdb opts date ts1,
      ∀ b ∈ BW.windowCandidates zdb opts date ts1, BW.sameAttr a b) :
    (BW.windowCandidates zdb opts date ts1).Perm (BW.windowCandidates zdb opts date ts2) ∧
      (BW.mergeWindows (BW.windowCandidates zdb opts date ts1)).map BW.winIv
        = (BW.mergeWindows (BW.windowCandidates zdb opts date ts2)).map BW.winIv := by
  have hcand : (BW.windowCandidates zdb opts date ts1).Perm
      (BW.windowCandidates zdb opts date ts2) := by
    unfold BW.windowCandidates
    exact List.Perm.flatMap_right _ hperm
  refine ⟨hcand, ?_⟩
  have hattr1 : ∀ a ∈ [] ++ BW.sortByStart (BW.windowCandidates zdb opts date ts1),
      ∀ b ∈ [] ++ BW.sortByStart (BW.windowCandidates zdb opts date ts1),
        BW.sameAttr a b := by
    intro a ha b hb
    simp only [List.nil_append] at ha hb
    exact hattr a ((BW.sortByStart_perm _).mem_iff.mp ha)
      b ((BW.sortByStart_perm _).mem_iff.mp hb)
  have hattr2 : ∀ a ∈ [] ++ BW.sortByStart (BW.windowCandidates zdb opts date ts2),
      ∀ b ∈ [] ++ BW.sortByStart (BW.windowCandidates zdb opts date ts2),
        BW.sameAttr a b := by
    intro a ha b hb
    simp only [List.nil_append] at ha hb
    exact hattr a (hcand.symm.mem_iff.mp ((BW.sortByStart_perm _).mem_iff.mp ha))
      b (hcand.symm.mem_iff.mp ((BW.sortByStart_perm _).mem_iff.mp hb))
  have h1 : (BW.mergeWindows (BW.windowCandidates zdb opts date ts1)).map BW.winIv
      = BW.mergeIvCore []
        ((BW.sortByStart (BW.windowCandidates zdb opts date ts1)).map BW.winIv) := by
    unfold BW.mergeWindows
    exact BW.mergeCore_map_iv _ [] hattr1
  have h2 : (BW.mergeWindows (BW.windowCandidates zdb opts date ts2)).map BW.winIv
      = BW.mergeIvCore []
        ((BW.sortByStart (BW.windowCandidates zdb opts date ts2)).map BW.winIv) := by
    unfold BW.mergeWindows
    exact BW.mergeCore_map_iv _ [] hattr2
  rw [h1, h2]
  refine BW.mergeIvCore_perm
    ((BW.sortByStart (BW.windowCandidates zdb opts date ts1)).map BW.winIv).length
    _ _ [] le_rfl ?_ ?_ ?_ ?_
  · exact ((BW.sortByStart_perm _).trans (hcand.trans (BW.sortByStart_perm _).symm)).map
      BW.winIv
  · exact List.pairwise_map.mpr (BW.sortByStart_pairwise _)
  · exact List.pairwise_map.mpr (BW.sortByStart_pairwise _)
  · intro q hq
    obtain ⟨w, hw, hwq⟩ := List.mem_map.mp hq
    have hmem : w ∈ BW.windowCandidates zdb opts date ts1 :=
      (BW.sortByStart_perm _).mem_iff.mp hw
    have hpos := BW.windowCandidates_pos hmem
    subst hwq
    exact hpos

/-- Decidability of the attribute equality, for concrete witnesses. -/
instance decSameAttr (a b : BW.IntermediateWindow) : Decidable (BW.sameAttr a b) :=
  decidable_of_iff
    (a.timeZone = b.timeZone ∧ a.redirectUrl = b.redirectUrl ∧ a.severity = b.severity)
    Iff.rfl

/-- Witness for C7 amended: two focus tasks with overlapping morning rules
in both orders; the hypotheses (permutation and uniform attributes) are
discharged on the concrete candidates. -/
theorem c7_amended_perm_uniform_attrs_witness :
    List.Perm [c7TaskX1, c7TaskX2] [c7TaskX2, c7TaskX1] ∧
      (∀ a ∈ BW.windowCandidates zdbZero cwOpts ⟨2024, 6, 10⟩ [c7TaskX1, c7TaskX2],
        ∀ b ∈ BW.windowCandidates zdbZero cwOpts ⟨2024, 6, 10⟩ [c7TaskX1, c7TaskX2],
          BW.sameAttr a b) ∧
      ((BW.windowCandidates zdbZero cwOpts ⟨2024, 6, 10⟩ [c7TaskX1, c7TaskX2]).Perm
          (BW.windowCandidates zdbZero cwOpts ⟨2024, 6, 10⟩ [c7TaskX2, c7TaskX1]) ∧
        (BW.mergeWindows (BW.windowCandidates zdbZero cwOpts ⟨2024, 6, 10⟩
            [c7TaskX1, c7TaskX2])).map BW.winIv
          = (BW.mergeWindows (BW.windowCandidates zdbZero cwOpts ⟨2024, 6, 10⟩
              [c7TaskX2, c7TaskX1])).map BW.winIv) :=
  ⟨List.Perm.swap c7TaskX2 c7TaskX1 [], by decide,
    c7_amended_perm_uniform_attrs zdbZero cwOpts ⟨2024, 6, 10⟩ [c7TaskX1, c7TaskX2]
      [c7TaskX2, c7TaskX1] (List.Perm.swap c7TaskX2 c7TaskX1 []) (by decide)⟩

/-! ## C9: time strings that fail to parse -/

/-- A time rule whose start-time string has no parseable hour or minute
part. -/
def c9Rule : BW.TimeRuleEntity :=
  { id := "bad", startTime := some "xx:yy", endTime := none, anytime := false }

/-- A task whose only time rule is the malformed one. -/
def c9Task : BW.TaskEntity :=
  { id := "tb", title := "Malformed", description := none, kind := "habit", active := true,
    startDate := none, endDate := none, periodRules := [], timeRules := [c9Rule],
    tags := [] }

/-- Counterexample to C9: the task whose only time rule carries the
unparseable start time xx:yy still produces a window.  toMinutes returns 0
for the string, so the rule resolves to the minute interval from midnight
to the default duration and is not skipped; the claim says it contributes
no window. -/
theorem c9_counterexample :
    BW.buildBlockingWindowsCore zdbZero [c9Task] cwOpts ⟨2024, 6, 10⟩
      = [{ startAt := 1717977600000, endAt := 1717981200000,
           reason := "タスク: Malformed", redirectUrl := "https://r.example",
           severity := BW.Severity.lenient }] := by
  decide

/-- C9 amended: a start-time string that fails to parse is not skipped but
treated as midnight: toMinutes evaluates any string whose hour part parses
to NaN to 0, a rule carrying such a start time resolves exactly as if its
start time were 00:00, the computation never aborts (every function is
total), and candidate generation is per task, so the candidates of all
other tasks are unchanged; only the subsequent merge may combine the
spurious window with theirs. -/
theorem c9_amended_unparseable_start_midnight :
    (∀ s : String, s ≠ "" → jsParseInt ((splitChar ':' s).headD "0") = none →
      BW.toMinutes s = 0) ∧
      (∀ (rule : BW.TimeRuleEntity) (o : BW.ResolveOptions) (s : String),
        rule.anytime = false → rule.startTime = some s → s ≠ "" → BW.toMinutes s = 0 →
        BW.resolveMinutesForRule rule o
          = BW.resolveMinutesForRule { rule with startTime := some "00:00" } o) ∧
      (∀ (zdb : BW.ZoneDb) (opts : BW.BuildWindowOptions) (date : DateISO)
        (l1 l2 : List BW.TaskEntity),
        BW.windowCandidates zdb opts date (l1 ++ l2)
          = BW.windowCandidates zdb opts date l1 ++ BW.windowCandidates zdb opts date l2) := by
  refine ⟨?_, ?_, ?_⟩
  · intro s hs hnone
    unfold BW.toMinutes
    rw [if_neg hs]
    simp only [hnone]
  · intro rule o s hany hst hs htm
    have h00 : BW.toMinutes "00:00" = 0 := by decide
    unfold BW.resolveMinutesForRule
    simp [BW.strFalsy, hany, hst, hs, htm, h00]
  · intro zdb opts date l1 l2
    unfold BW.windowCandidates
    simp [List.flatMap_append]

/-- Witness for C9 amended at the concrete string xx:yy, the malformed
rule, and a two-task split. -/
theorem c9_amended_unparseable_start_midnight_witness :
    ("xx:yy" ≠ "" ∧ jsParseInt ((splitChar ':' "xx:yy").headD "0") = none ∧
      BW.toMinutes "xx:yy" = 0) ∧
      (c9Rule.anytime = false ∧ c9Rule.startTime = some "xx:yy" ∧
        BW.resolveMinutesForRule c9Rule c4Opts
          = BW.resolveMinutesForRule { c9Rule with startTime := some "00:00" } c4Opts) ∧
      BW.windowCandidates zdbZero cwOpts ⟨2024, 6, 10⟩ ([c7TaskX1] ++ [c9Task])
        = BW.windowCandidates zdbZero cwOpts ⟨2024, 6, 10⟩ [c7TaskX1]
          ++ BW.windowCandidates zdbZero cwOpts ⟨2024, 6, 10⟩ [c9Task] :=
  ⟨⟨by decide, by decide,
    c9_amended_unparseable_start_midnight.1 "xx:yy" (by decide) (by decide)⟩,
    ⟨by decide, by decide,
      c9_amended_unparseable_start_midnight.2.1 c9Rule c4Opts "xx:yy" (by decide) rfl
        (by decide) (by decide)⟩,
    c9_amended_unparseable_start_midnight.2.2 zdbZero cwOpts ⟨2024, 6, 10⟩
      [c7TaskX1] [c9Task]⟩
